import Mathlib

set_option maxRecDepth 10000

/-!
Verification of the LSP client of `src/lsp.rs` (crush-rs).

The development shallowly embeds the JSON-RPC layer of the client:

* `Jval` models `serde_json::Value` (numbers restricted to integers, the
  only numbers this client produces: request ids are `u64`).
* `Request`, `Response`, `Notification` and `Message` model the structs of
  the `jsonrpc` module at the bottom of `lsp.rs`; `Message` is an untagged
  enum, so decoding tries `Request`, then `Response`, then `Notification`.
* `render` / `jsonParse` model `serde_json::to_string` / `from_str`
  (compact rendering; parsing of the integer subset actually exchanged).
* byte-level framing: `send_message` and `receive_message` model the
  functions of the same names, over byte lists (`List Nat`, each < 256).
-/
namespace CrushLsp

/-- Model of `serde_json::Value`, with numbers restricted to integers
(the client only ever puts `u64` ids and structured params on the wire). -/
inductive Jval where
  | null
  | bool (b : Bool)
  | num (n : Int)
  | str (s : String)
  | arr (elems : List Jval)
  | obj (fields : List (String × Jval))

mutual

/-- Decidable equality on `Jval` (the nested lists prevent deriving it). -/
def Jval.decEq : (a b : Jval) → Decidable (a = b)
  | .null, .null => isTrue rfl
  | .null, .bool _ => isFalse (fun h => Jval.noConfusion h)
  | .null, .num _ => isFalse (fun h => Jval.noConfusion h)
  | .null, .str _ => isFalse (fun h => Jval.noConfusion h)
  | .null, .arr _ => isFalse (fun h => Jval.noConfusion h)
  | .null, .obj _ => isFalse (fun h => Jval.noConfusion h)
  | .bool _, .null => isFalse (fun h => Jval.noConfusion h)
  | .bool x, .bool y =>
      if h : x = y then isTrue (h ▸ rfl)
      else isFalse (fun hh => h (Jval.bool.inj hh))
  | .bool _, .num _ => isFalse (fun h => Jval.noConfusion h)
  | .bool _, .str _ => isFalse (fun h => Jval.noConfusion h)
  | .bool _, .arr _ => isFalse (fun h => Jval.noConfusion h)
  | .bool _, .obj _ => isFalse (fun h => Jval.noConfusion h)
  | .num _, .null => isFalse (fun h => Jval.noConfusion h)
  | .num _, .bool _ => isFalse (fun h => Jval.noConfusion h)
  | .num x, .num y =>
      if h : x = y then isTrue (h ▸ rfl)
      else isFalse (fun hh => h (Jval.num.inj hh))
  | .num _, .str _ => isFalse (fun h => Jval.noConfusion h)
  | .num _, .arr _ => isFalse (fun h => Jval.noConfusion h)
  | .num _, .obj _ => isFalse (fun h => Jval.noConfusion h)
  | .str _, .null => isFalse (fun h => Jval.noConfusion h)
  | .str _, .bool _ => isFalse (fun h => Jval.noConfusion h)
  | .str _, .num _ => isFalse (fun h => Jval.noConfusion h)
  | .str x, .str y =>
      if h : x = y then isTrue (h ▸ rfl)
      else isFalse (fun hh => h (Jval.str.inj hh))
  | .str _, .arr _ => isFalse (fun h => Jval.noConfusion h)
  | .str _, .obj _ => isFalse (fun h => Jval.noConfusion h)
  | .arr _, .null => isFalse (fun h => Jval.noConfusion h)
  | .arr _, .bool _ => isFalse (fun h => Jval.noConfusion h)
  | .arr _, .num _ => isFalse (fun h => Jval.noConfusion h)
  | .arr _, .str _ => isFalse (fun h => Jval.noConfusion h)
  | .arr xs, .arr ys =>
      match Jval.decEqList xs ys with
      | isTrue h => isTrue (h ▸ rfl)
      | isFalse h => isFalse (fun hh => h (Jval.arr.inj hh))
  | .arr _, .obj _ => isFalse (fun h => Jval.noConfusion h)
  | .obj _, .null => isFalse (fun h => Jval.noConfusion h)
  | .obj _, .bool _ => isFalse (fun h => Jval.noConfusion h)
  | .obj _, .num _ => isFalse (fun h => Jval.noConfusion h)
  | .obj _, .str _ => isFalse (fun h => Jval.noConfusion h)
  | .obj _, .arr _ => isFalse (fun h => Jval.noConfusion h)
  | .obj xs, .obj ys =>
      match Jval.decEqFields xs ys with
      | isTrue h => isTrue (h ▸ rfl)
      | isFalse h => isFalse (fun hh => h (Jval.obj.inj hh))

/-- Decidable equality on lists of `Jval`. -/
def Jval.decEqList : (a b : List Jval) → Decidable (a = b)
  | [], [] => isTrue rfl
  | [], _ :: _ => isFalse (fun h => List.noConfusion h)
  | _ :: _, [] => isFalse (fun h => List.noConfusion h)
  | x :: xs, y :: ys =>
      match Jval.decEq x y, Jval.decEqList xs ys with
      | isTrue h1, isTrue h2 => isTrue (h1 ▸ h2 ▸ rfl)
      | isFalse h1, _ => isFalse (fun hh => h1 (List.cons.inj hh).1)
      | _, isFalse h2 => isFalse (fun hh => h2 (List.cons.inj hh).2)

/-- Decidable equality on object field lists. -/
def Jval.decEqFields : (a b : List (String × Jval)) → Decidable (a = b)
  | [], [] => isTrue rfl
  | [], _ :: _ => isFalse (fun h => List.noConfusion h)
  | _ :: _, [] => isFalse (fun h => List.noConfusion h)
  | (k, v) :: xs, (l, w) :: ys =>
      if h0 : k = l then
        match Jval.decEq v w, Jval.decEqFields xs ys with
        | isTrue h1, isTrue h2 => isTrue (h0 ▸ h1 ▸ h2 ▸ rfl)
        | isFalse h1, _ =>
            isFalse (fun hh => h1 (congrArg Prod.snd (List.cons.inj hh).1))
        | _, isFalse h2 => isFalse (fun hh => h2 (List.cons.inj hh).2)
      else isFalse (fun hh => h0 (congrArg Prod.fst (List.cons.inj hh).1))

end

instance : DecidableEq Jval := Jval.decEq

/-- `jsonrpc::Request`: `{jsonrpc: Option<String>, method: String,
params: Option<Value>, id: Option<Value>}` (lsp.rs lines 247-253). -/
structure Request where
  jsonrpc : Option String
  method : String
  params : Option Jval
  id : Option Jval
deriving DecidableEq

/-- `jsonrpc::Response`: `{jsonrpc, result, error, id}`, all optional
(lsp.rs lines 255-261). -/
structure Response where
  jsonrpc : Option String
  result : Option Jval
  error : Option Jval
  id : Option Jval
deriving DecidableEq

/-- `jsonrpc::Notification`: `{jsonrpc, method, params}` (lsp.rs 263-268). -/
structure Notification where
  jsonrpc : Option String
  method : String
  params : Option Jval
deriving DecidableEq

/-- `jsonrpc::Message`, an untagged enum of the three shapes above
(lsp.rs lines 230-236). -/
inductive Message where
  | request (r : Request)
  | response (r : Response)
  | notification (n : Notification)
deriving DecidableEq

/-- `Message::as_response` (lsp.rs lines 239-244). -/
def Message.as_response : Message → Option Response
  | .response r => some r
  | _ => none

/-! ## Serialization to `Jval` (what `serde_json::to_string` builds)

The structs carry no serde attributes, so every field is emitted, in
declaration order, with `Option::None` serialized as `null`. -/

/-- Serialize a Rust `Option<Value>` field: `None` becomes `null`. -/
def optValJson : Option Jval → Jval
  | none => .null
  | some v => v

/-- Serialize a Rust `Option<String>` field: `None` becomes `null`. -/
def optStrJson : Option String → Jval
  | none => .null
  | some s => .str s

/-- Serialization of `jsonrpc::Request` (fields in declaration order). -/
def Request.toJson (r : Request) : Jval :=
  .obj [("jsonrpc", optStrJson r.jsonrpc), ("method", .str r.method),
        ("params", optValJson r.params), ("id", optValJson r.id)]

/-- Serialization of `jsonrpc::Response` (fields in declaration order). -/
def Response.toJson (r : Response) : Jval :=
  .obj [("jsonrpc", optStrJson r.jsonrpc), ("result", optValJson r.result),
        ("error", optValJson r.error), ("id", optValJson r.id)]

/-- Serialization of `jsonrpc::Notification` (fields in declaration order). -/
def Notification.toJson (n : Notification) : Jval :=
  .obj [("jsonrpc", optStrJson n.jsonrpc), ("method", .str n.method),
        ("params", optValJson n.params)]

/-- Serialization of the untagged `jsonrpc::Message`: just the payload,
with no variant tag (`#[serde(untagged)]`, lsp.rs line 231). -/
def Message.toJson : Message → Jval
  | .request r => r.toJson
  | .response r => r.toJson
  | .notification n => n.toJson

/-! ## Deserialization from `Jval` (what `serde_json::from_str` does)

An untagged enum is decoded by trying the variants in declaration order:
`Request`, then `Response`, then `Notification`. Struct decoding ignores
unknown fields; a missing or `null` `Option` field is `None`; a field of
the wrong type fails the whole variant. (Wire messages in this protocol
carry no duplicate keys, so the first occurrence of a key is THE
occurrence.) -/

/-- First value bound to `key` in an object field list. -/
def getField : List (String × Jval) → String → Option Jval
  | [], _ => none
  | (k, v) :: rest, key => if k = key then some v else getField rest key

/-- Decode a field of Rust type `Option<Value>`: missing or `null` gives
`None`, anything else `Some`. This never fails; note that an explicit
`null` is indistinguishable from an absent field after decoding. -/
def decodeOptVal (fields : List (String × Jval)) (key : String) : Option Jval :=
  match getField fields key with
  | none => none
  | some .null => none
  | some v => some v

/-- Decode a field of Rust type `Option<String>`: missing or `null` gives
`None`, a string gives `Some`, any other shape is a type error (outer
`none`). -/
def decodeOptStr (fields : List (String × Jval)) (key : String) :
    Option (Option String) :=
  match getField fields key with
  | none => some none
  | some .null => some none
  | some (.str s) => some (some s)
  | some _ => none

/-- Decode a required `String` field: absent or non-string fails. -/
def decodeStrField (fields : List (String × Jval)) (key : String) :
    Option String :=
  match getField fields key with
  | some (.str s) => some s
  | _ => none

/-- Deserialization of `jsonrpc::Request` from a JSON value. -/
def Request.fromJson : Jval → Option Request
  | .obj fs =>
      match decodeOptStr fs "jsonrpc", decodeStrField fs "method" with
      | some j, some m =>
          some ⟨j, m, decodeOptVal fs "params", decodeOptVal fs "id"⟩
      | _, _ => none
  | _ => none

/-- Deserialization of `jsonrpc::Response` from a JSON value. -/
def Response.fromJson : Jval → Option Response
  | .obj fs =>
      match decodeOptStr fs "jsonrpc" with
      | some j =>
          some ⟨j, decodeOptVal fs "result", decodeOptVal fs "error",
                decodeOptVal fs "id"⟩
      | none => none
  | _ => none

/-- Deserialization of `jsonrpc::Notification` from a JSON value. -/
def Notification.fromJson : Jval → Option Notification
  | .obj fs =>
      match decodeOptStr fs "jsonrpc", decodeStrField fs "method" with
      | some j, some m => some ⟨j, m, decodeOptVal fs "params"⟩
      | _, _ => none
  | _ => none

/-- Deserialization of the untagged `jsonrpc::Message`: the first variant
(in declaration order `Request`, `Response`, `Notification`) whose shape
matches wins. -/
def Message.fromJson (v : Jval) : Option Message :=
  match Request.fromJson v with
  | some r => some (.request r)
  | none =>
      match Response.fromJson v with
      | some r => some (.response r)
      | none =>
          match Notification.fromJson v with
          | some n => some (.notification n)
          | none => none

/-! ## Compact JSON text rendering (`serde_json::to_string`)

`to_string` emits compact JSON: no whitespace, fields in order, strings
escaped exactly as serde_json does (`\"`, `\\`, `\b`, `\t`, `\n`, `\f`,
`\r`, and `\u00xx` with lowercase hex for the remaining control
characters; `/` and non-ASCII characters are left unescaped). -/

/-- Opening brace character (written by code point to keep object
rendering readable). -/
def lbrace : Char := Char.ofNat 123

/-- Closing brace character. -/
def rbrace : Char := Char.ofNat 125

/-- Lowercase hex digit for a value below 16. -/
def hexChar (n : Nat) : Char :=
  if n < 10 then Char.ofNat (48 + n) else Char.ofNat (87 + n)

/-- serde_json's escaping of one character inside a JSON string. -/
def escapeChar (c : Char) : String :=
  if c = Char.ofNat 34 then "\\\""
  else if c = Char.ofNat 92 then "\\\\"
  else if c = Char.ofNat 8 then "\\b"
  else if c = Char.ofNat 9 then "\\t"
  else if c = Char.ofNat 10 then "\\n"
  else if c = Char.ofNat 12 then "\\f"
  else if c = Char.ofNat 13 then "\\r"
  else if c.toNat < 32 then
    "\\u00" ++ String.mk [hexChar (c.toNat / 16), hexChar (c.toNat % 16)]
  else String.singleton c

/-- Decimal digit writer, structural on a fuel counter (sufficient
whenever the fuel is at least the number, see `natDigitsGo_fuel_irrel`;
the fuel-exhausted base case is only ever reached with `n < 10`, where
it is the correct single digit). -/
def natDigitsGo : Nat → Nat → List Nat
  | 0, n => [48 + n % 10]
  | fuel + 1, n =>
      if n < 10 then [48 + n]
      else natDigitsGo fuel (n / 10) ++ [48 + n % 10]

/-- Decimal digits of a number, as ASCII bytes (what
`format!("{content_length}")` prints). -/
def natDigits (n : Nat) : List Nat := natDigitsGo n n

/-- The decimal digit characters of a natural number. -/
def natDecChars (m : Nat) : List Char := (natDigits m).map Char.ofNat

/-- The decimal notation of an integer, as serde_json prints numbers:
optional minus sign, then digits without leading zeros. -/
def intDecChars (i : Int) : List Char :=
  if i < 0 then '-' :: natDecChars (-i).toNat else natDecChars i.toNat

/-- Render a JSON string literal, quotes included. -/
def renderString (s : String) : String :=
  "\"" ++ s.data.foldl (fun acc c => acc ++ escapeChar c) "" ++ "\""

mutual

/-- Compact rendering of a JSON value, as `serde_json::to_string` would
print it (integer numbers only, which is all this client sends). -/
def render : Jval → String
  | .null => "null"
  | .bool true => "true"
  | .bool false => "false"
  | .num n => String.mk (intDecChars n)
  | .str s => renderString s
  | .arr xs => "[" ++ renderElems xs ++ "]"
  | .obj fs => String.singleton lbrace ++ renderFields fs ++ String.singleton rbrace

/-- Comma-separated rendering of array elements. -/
def renderElems : List Jval → String
  | [] => ""
  | [x] => render x
  | x :: xs => render x ++ "," ++ renderElems xs

/-- Comma-separated rendering of object members. -/
def renderFields : List (String × Jval) → String
  | [] => ""
  | [(k, v)] => renderString k ++ ":" ++ render v
  | (k, v) :: fs => renderString k ++ ":" ++ render v ++ "," ++ renderFields fs

end

/-! ## JSON text parsing (`serde_json::from_str`)

A total recursive-descent parser over `List Char`, with a fuel counter
for termination. It covers the grammar this client exchanges: literals,
integer numbers (floats are outside the modelled subset, matching the
integer-only `Jval`), strings with the full escape set (including
`\uXXXX` and surrogate pairs), arrays and objects. `from_str` demands
that nothing but whitespace follow the value. -/

/-- The JSON whitespace characters (space, tab, line feed, carriage
return; exactly the set serde_json skips). -/
def isJsonWs (c : Char) : Bool :=
  c = Char.ofNat 32 || c = Char.ofNat 9 || c = Char.ofNat 10 || c = Char.ofNat 13

/-- Drop leading JSON whitespace. -/
def dropWs : List Char → List Char
  | c :: cs => if isJsonWs c then dropWs cs else c :: cs
  | [] => []

/-- Is this an ASCII decimal digit? -/
def isDigitChar (c : Char) : Bool := 48 ≤ c.toNat && c.toNat ≤ 57

/-- Longest digit prefix and the rest of the input. -/
def spanDigits : List Char → List Char × List Char
  | c :: cs =>
      if isDigitChar c then
        let (ds, r) := spanDigits cs
        (c :: ds, r)
      else ([], c :: cs)
  | [] => ([], [])

/-- Numeric value of a digit list. -/
def digitsToNat (ds : List Char) : Nat :=
  ds.foldl (fun acc c => acc * 10 + (c.toNat - 48)) 0

/-- Value of one hex digit, if it is one. -/
def hexVal (c : Char) : Option Nat :=
  if 48 ≤ c.toNat ∧ c.toNat ≤ 57 then some (c.toNat - 48)
  else if 97 ≤ c.toNat ∧ c.toNat ≤ 102 then some (c.toNat - 87)
  else if 65 ≤ c.toNat ∧ c.toNat ≤ 70 then some (c.toNat - 55)
  else none

/-- Value of a four-hex-digit escape. -/
def hexQuad (a b c d : Char) : Option Nat := do
  let x ← hexVal a
  let y ← hexVal b
  let z ← hexVal c
  let w ← hexVal d
  return ((x * 16 + y) * 16 + z) * 16 + w

/-- One-character escapes after a backslash. -/
def unescapeChar (c : Char) : Option Char :=
  if c = Char.ofNat 34 then some (Char.ofNat 34)
  else if c = Char.ofNat 92 then some (Char.ofNat 92)
  else if c = Char.ofNat 47 then some (Char.ofNat 47)
  else if c = 'b' then some (Char.ofNat 8)
  else if c = 'f' then some (Char.ofNat 12)
  else if c = 'n' then some (Char.ofNat 10)
  else if c = 'r' then some (Char.ofNat 13)
  else if c = 't' then some (Char.ofNat 9)
  else none

/-- One lexing step inside a JSON string body: the closing quote
(`some (none, rest)`), one decoded character (`some (some ch, rest)`,
covering the escape set including `\uXXXX` with surrogate pairs), or a
lexing error (`none`). -/
def pStrStep : List Char → Option (Option Char × List Char)
  | c :: cs =>
      if c = Char.ofNat 34 then some (none, cs)
      else if c = Char.ofNat 92 then
        match cs with
        | 'u' :: a :: b :: c2 :: d :: rest =>
            match hexQuad a b c2 d with
            | none => none
            | some n =>
                if n < 0xD800 ∨ 0xE000 ≤ n then
                  some (some (Char.ofNat n), rest)
                else if n < 0xDC00 then
                  -- high surrogate: a low surrogate escape must follow
                  match rest with
                  | c3 :: 'u' :: a2 :: b2 :: c4 :: d2 :: rest2 =>
                      if c3 = Char.ofNat 92 then
                        match hexQuad a2 b2 c4 d2 with
                        | some m =>
                            if 0xDC00 ≤ m ∧ m < 0xE000 then
                              some (some (Char.ofNat
                                (0x10000 + (n - 0xD800) * 0x400 +
                                  (m - 0xDC00))), rest2)
                            else none
                        | none => none
                      else none
                  | _ => none
                else none
        | e :: rest =>
            match unescapeChar e with
            | some ch => some (some ch, rest)
            | none => none
        | [] => none
      else if c.toNat < 32 then none
      else some (some c, cs)
  | [] => none

/-- Parse a JSON string body by iterated lexing steps, structural on a
fuel counter (each step consumes at least one character, so fuel equal
to the input length suffices, see `pStrStep_length`). -/
def pStringBodyGo (acc : List Char) : Nat → List Char → Option (String × List Char)
  | 0, _ => none
  | fuel + 1, cs =>
      match pStrStep cs with
      | some (none, r) => some (String.mk acc.reverse, r)
      | some (some ch, r) => pStringBodyGo (ch :: acc) fuel r
      | none => none

/-- Parse the body of a JSON string after the opening quote; handles the
escape set including `\uXXXX` with surrogate pairs. -/
def pStringBody (acc : List Char) (cs : List Char) : Option (String × List Char) :=
  pStringBodyGo acc cs.length cs

/-- Parse a JSON integer (optional minus, no leading zeros; a fraction
or exponent is outside the modelled integer subset). -/
def pInt (cs : List Char) : Option (Int × List Char) :=
  let cs1 := if cs.head? = some '-' then cs.tail else cs
  match spanDigits cs1 with
  | ([], _) => none
  | (d :: ds2, r) =>
      if d = '0' ∧ ds2 ≠ [] then none
      else if r.head? = some '.' ∨ r.head? = some 'e' ∨ r.head? = some 'E' then
        none
      else
        let v : Int := (digitsToNat (d :: ds2) : Nat)
        some (if cs.head? = some '-' then -v else v, r)

mutual

/-- Parse one JSON value (fuel-bounded recursive descent). -/
def pVal : Nat → List Char → Option (Jval × List Char)
  | 0, _ => none
  | fuel + 1, cs =>
      match dropWs cs with
      | [] => none
      | c :: r =>
          if c = 'n' then
            if r.take 3 = ['u', 'l', 'l'] then some (.null, r.drop 3) else none
          else if c = 't' then
            if r.take 3 = ['r', 'u', 'e'] then some (.bool true, r.drop 3)
            else none
          else if c = 'f' then
            if r.take 4 = ['a', 'l', 's', 'e'] then some (.bool false, r.drop 4)
            else none
          else if c = Char.ofNat 34 then
            match pStringBody [] r with
            | some (s, r2) => some (.str s, r2)
            | none => none
          else if c = '[' then
            match dropWs r with
            | [] => none
            | c2 :: r2 =>
                if c2 = ']' then some (.arr [], r2)
                else
                  match pElems fuel (c2 :: r2) with
                  | some (xs, r3) => some (.arr xs, r3)
                  | none => none
          else if c = lbrace then
            match dropWs r with
            | [] => none
            | c2 :: r2 =>
                if c2 = rbrace then some (.obj [], r2)
                else
                  match pMembers fuel (c2 :: r2) with
                  | some (fs, r3) => some (.obj fs, r3)
                  | none => none
          else if c = '-' ∨ isDigitChar c then
            match pInt (c :: r) with
            | some (n, r2) => some (.num n, r2)
            | none => none
          else none

/-- Parse one-or-more comma-separated array elements up to `]`. -/
def pElems : Nat → List Char → Option (List Jval × List Char)
  | 0, _ => none
  | fuel + 1, cs =>
      match pVal fuel cs with
      | none => none
      | some (v, r) =>
          match dropWs r with
          | ',' :: r2 =>
              (match pElems fuel r2 with
               | some (vs, r3) => some (v :: vs, r3)
               | none => none)
          | ']' :: r2 => some ([v], r2)
          | _ => none

/-- Parse one-or-more comma-separated object members up to the closing
brace. -/
def pMembers : Nat → List Char → Option (List (String × Jval) × List Char)
  | 0, _ => none
  | fuel + 1, cs =>
      match dropWs cs with
      | c :: r =>
          if c = Char.ofNat 34 then
            match pStringBody [] r with
            | none => none
            | some (k, r1) =>
                match dropWs r1 with
                | ':' :: r2 =>
                    (match pVal fuel r2 with
                     | none => none
                     | some (v, r3) =>
                         match dropWs r3 with
                         | ',' :: r4 =>
                             (match pMembers fuel r4 with
                              | some (ms, r5) => some ((k, v) :: ms, r5)
                              | none => none)
                         | c2 :: r4 =>
                             if c2 = rbrace then some ([(k, v)], r4) else none
                         | [] => none)
                | _ => none
          else none
      | [] => none

end

/-- Parse a complete JSON document: one value, then only whitespace, as
`serde_json::from_str` requires. -/
def jsonParse (cs : List Char) : Option Jval :=
  match pVal (2 * cs.length + 2) cs with
  | some (v, r) => if dropWs r = [] then some v else none
  | none => none

/-! ## Bytes and UTF-8

The wire carries bytes; we model them as `Nat` (each below 256). Rust's
`String` stores UTF-8, and `content.len()` (lsp.rs line 157) is the
UTF-8 byte count, so the encoder below is the bridge between the `String`
bodies and the byte stream. -/

/-- UTF-8 encoding of one character (1-4 bytes by scalar value range). -/
def utf8Char (c : Char) : List Nat :=
  let n := c.toNat
  if n < 0x80 then [n]
  else if n < 0x800 then [0xC0 + n / 64, 0x80 + n % 64]
  else if n < 0x10000 then
    [0xE0 + n / 4096, 0x80 + n / 64 % 64, 0x80 + n % 64]
  else
    [0xF0 + n / 262144, 0x80 + n / 4096 % 64, 0x80 + n / 64 % 64, 0x80 + n % 64]

/-- UTF-8 encoding of a character list. -/
def utf8Encode (cs : List Char) : List Nat := (cs.map utf8Char).flatten

/-- Is this byte a UTF-8 continuation byte? -/
def isCont (b : Nat) : Bool := 0x80 ≤ b && b < 0xC0

/-- One multi-byte UTF-8 sequence (lead byte at least `0x80`), with the
validation Rust performs: continuation bytes checked, overlong
encodings (`0xC0`/`0xC1` leads), surrogate code points and values
beyond U+10FFFF rejected. Returns the scalar value and the rest. -/
def utf8Step (b : Nat) (rest : List Nat) : Option (Nat × List Nat) :=
  if b < 0xC2 then none
  else if b < 0xE0 then
    match rest with
    | b1 :: rest2 =>
        if isCont b1 then some ((b - 0xC0) * 64 + (b1 - 0x80), rest2)
        else none
    | [] => none
  else if b < 0xF0 then
    match rest with
    | b1 :: b2 :: rest2 =>
        let n := (b - 0xE0) * 4096 + (b1 - 0x80) * 64 + (b2 - 0x80)
        if isCont b1 && isCont b2 && decide (0x800 ≤ n) &&
            (decide (n < 0xD800) || decide (0xE000 ≤ n)) then
          some (n, rest2)
        else none
    | _ => none
  else if b < 0xF5 then
    match rest with
    | b1 :: b2 :: b3 :: rest2 =>
        let n := (b - 0xF0) * 262144 + (b1 - 0x80) * 4096 +
          (b2 - 0x80) * 64 + (b3 - 0x80)
        if isCont b1 && isCont b2 && isCont b3 &&
            decide (0x10000 ≤ n) && decide (n < 0x110000) then
          some (n, rest2)
        else none
    | _ => none
  else none

/-- The UTF-8 decoding loop (`String::from_utf8`), structural on a fuel
counter; every step consumes at least one byte, so the fuel
`utf8Decode` supplies is never exhausted. -/
def utf8DecodeGo : Nat → List Nat → Option (List Char)
  | 0, _ => none
  | _ + 1, [] => some []
  | fuel + 1, b :: rest =>
      if b < 0x80 then
        (utf8DecodeGo fuel rest).map (fun cs => Char.ofNat b :: cs)
      else
        match utf8Step b rest with
        | some (n, rest2) =>
            (utf8DecodeGo fuel rest2).map (fun cs => Char.ofNat n :: cs)
        | none => none

/-- UTF-8 decoding with the validation Rust's `String::from_utf8`
performs. -/
def utf8Decode (l : List Nat) : Option (List Char) :=
  utf8DecodeGo (l.length + 1) l

/-! ## The frame decoder: `receive_message` (lsp.rs lines 186-215) -/

/-- The error exits of `receive_message`, by stage: the `parse()?` on the
length value (line 203), the `read_exact` hitting end of stream (line
210), the two UTF-8 validations (`read_line` on the headers, line 192,
and `String::from_utf8` on the body, line 211), and the final
`serde_json::from_str` (line 214, which also covers a well-formed JSON
value matching no `Message` variant). -/
inductive RecvErr where
  | lengthParse
  | eof
  | headerUtf8
  | bodyUtf8
  | msgParse
deriving DecidableEq

/-- Decidable equality for `Except` results (absent from the library). -/
def exceptDecEq {ε α : Type} [DecidableEq ε] [DecidableEq α] :
    (a b : Except ε α) → Decidable (a = b)
  | .error e, .error f =>
      if h : e = f then isTrue (h ▸ rfl)
      else isFalse (fun hh => h (Except.error.inj hh))
  | .error _, .ok _ => isFalse (fun h => Except.noConfusion h)
  | .ok _, .error _ => isFalse (fun h => Except.noConfusion h)
  | .ok a, .ok b =>
      if h : a = b then isTrue (h ▸ rfl)
      else isFalse (fun hh => h (Except.ok.inj hh))

instance {ε α : Type} [DecidableEq ε] [DecidableEq α] :
    DecidableEq (Except ε α) := exceptDecEq

/-- `read_line`: bytes up to and including the first line feed (or all
remaining bytes at end of stream), plus the rest of the stream. -/
def readLine : List Nat → List Nat × List Nat
  | [] => ([], [])
  | b :: rest =>
      if b = 10 then ([10], rest)
      else
        let (l, r) := readLine rest
        (b :: l, r)

/-- The header loop (lsp.rs lines 191-196): append lines until
`read_line` returns nothing or the accumulated headers end in an empty
line (`\r\n\r\n`). Structural on a fuel counter so that it computes in
the kernel; every iteration consumes at least one byte, so the fuel
`readHeaders` supplies is never exhausted (`readHeadersGo_fuel_irrel`
below makes that exact). -/
def readHeadersGo : Nat → List Nat → List Nat → List Nat × List Nat
  | 0, acc, s => (acc, s)
  | fuel + 1, acc, s =>
      if (readLine s).1.isEmpty ||
          List.isSuffixOf [13, 10, 13, 10] (acc ++ (readLine s).1) then
        (acc ++ (readLine s).1, (readLine s).2)
      else readHeadersGo fuel (acc ++ (readLine s).1) (readLine s).2

/-- The header block and the remaining stream. -/
def readHeaders (s : List Nat) : List Nat × List Nat :=
  readHeadersGo (s.length + 1) [] s

/-! ## Content-Length scanning (lsp.rs lines 198-206) -/

/-- ASCII lowercasing, the fragment of Rust's Unicode `to_lowercase`
exercised by header field names. -/
def asciiLower (c : Char) : Char :=
  if 65 ≤ c.toNat ∧ c.toNat ≤ 90 then Char.ofNat (c.toNat + 32) else c

/-- Split a character list on a separator; always at least one piece. -/
def splitOnChar (sep : Char) : List Char → List (List Char)
  | [] => [[]]
  | c :: cs =>
      if c = sep then [] :: splitOnChar sep cs
      else
        match splitOnChar sep cs with
        | p :: ps => (c :: p) :: ps
        | [] => [[c]]

/-- Strip one trailing carriage return (what `str::lines` does to each
piece). -/
def stripCr (l : List Char) : List Char :=
  if l.getLast? = some (Char.ofNat 13) then l.dropLast else l

/-- Rust's `str::lines`: split on `\n`, drop the trailing empty piece
a final newline produces, strip one `\r` off each line. -/
def rustLines (cs : List Char) : List (List Char) :=
  let ps := splitOnChar (Char.ofNat 10) cs
  let ps2 := if ps.getLast? = some [] then ps.dropLast else ps
  ps2.map stripCr

/-- Rust whitespace trimming (`str::trim`), on the ASCII whitespace that
occurs in headers. -/
def isTrimWs (c : Char) : Bool :=
  c = Char.ofNat 32 || c = Char.ofNat 9 || c = Char.ofNat 10 ||
    c = Char.ofNat 13

/-- `str::trim`: drop whitespace from both ends. -/
def trimChars (l : List Char) : List Char :=
  ((l.dropWhile isTrimWs).reverse.dropWhile isTrimWs).reverse

/-- Rust's `str::parse::<usize>` (`u64::from_str`): an optional leading
`+`, then one or more ASCII digits, failing on anything else and on
overflow past `2^64 - 1`. -/
def parseUsize (l : List Char) : Option Nat :=
  let l2 := if l.head? = some '+' then l.tail else l
  if l2.isEmpty then none
  else if l2.all isDigitChar then
    let v := digitsToNat l2
    if v < 2 ^ 64 then some v else none
  else none

/-- Does this (already lowercased) header line declare a length? -/
def isLengthLine (l : List Char) : Bool :=
  List.isPrefixOf "content-length:".data (l.map asciiLower)

/-- The `for line in headers.lines()` loop (lsp.rs 199-206): the last
well-parsed `content-length` value wins, a malformed one aborts via
`?`, and the value starts at 0 (line 187). -/
def scanLengthLines : List (List Char) → Nat → Except RecvErr Nat
  | [], acc => .ok acc
  | line :: rest, acc =>
      if isLengthLine line then
        match splitOnChar ':' line with
        | _ :: p1 :: _ =>
            match parseUsize (trimChars p1) with
            | some n => scanLengthLines rest n
            | none => .error .lengthParse
        | _ => scanLengthLines rest acc
      else scanLengthLines rest acc

/-- Content length declared by a header block (0 when no line declares
one, since the variable starts at 0). -/
def contentLengthOf (headerChars : List Char) : Except RecvErr Nat :=
  scanLengthLines (rustLines headerChars) 0

/-- `receive_message` (lsp.rs lines 186-215): read the header block,
scan it for a content length, read exactly that many body bytes (failing
if the stream ends first), validate UTF-8 and parse one `Message`.
Returns the message and the unconsumed stream. -/
def receive_message (s : List Nat) : Except RecvErr (Message × List Nat) :=
  let hdr := (readHeaders s).1
  let rest := (readHeaders s).2
  match utf8Decode hdr with
  | none => .error .headerUtf8
  | some hchars =>
      match contentLengthOf hchars with
      | .error e => .error e
      | .ok n =>
          if rest.length < n then .error .eof
          else
            match utf8Decode (rest.take n) with
            | none => .error .bodyUtf8
            | some bchars =>
                match jsonParse bchars with
                | none => .error .msgParse
                | some v =>
                    match Message.fromJson v with
                    | none => .error .msgParse
                    | some m => .ok (m, rest.drop n)

/-! ## The frame encoder: `send_message` (lsp.rs lines 155-166) -/

/-- The frame for an already-serialized body:
`"Content-Length: {len}\r\n\r\n"` then the body bytes, where `len` is
`content.len()`, the UTF-8 byte count. -/
def frameOf (content : String) : List Nat :=
  utf8Encode "Content-Length: ".data ++
    natDigits (utf8Encode content.data).length ++
    utf8Encode "\r\n\r\n".data ++ utf8Encode content.data

/-- `send_message` at the `Message` payload type: serialize with
`serde_json::to_string`, then frame. -/
def send_message (m : Message) : List Nat := frameOf (render m.toJson)

/-- The loop of `receive_response` (lsp.rs lines 173-182): decode frames
one after another, skipping any message that is not a response carrying
the expected id; on a match, deliver
`response.result.unwrap_or(Value::Null)` — the value handed to
`serde_json::from_value::<R::Result>` (that generic result decoding is
the caller's `dec` in `LspClient.new` below). The `error` member of the
response is never consulted. Structural on fuel, which is never
exhausted from `receive_response` because every decoded frame consumes
at least one byte (`receiveResponseGo_fuel_irrel`). -/
def receiveResponseGo : Nat → Nat → List Nat → Except RecvErr (Jval × List Nat)
  | 0, _, _ => .error .eof
  | fuel + 1, expectedId, s =>
      match receive_message s with
      | .error e => .error e
      | .ok (m, rest) =>
          match m.as_response with
          | some r =>
              if r.id = some (.num expectedId) then
                .ok (r.result.getD .null, rest)
              else receiveResponseGo fuel expectedId rest
          | none => receiveResponseGo fuel expectedId rest

/-- `receive_response` (lsp.rs lines 169-183). -/
def receive_response (expectedId : Nat) (s : List Nat) :
    Except RecvErr (Jval × List Nat) :=
  receiveResponseGo (s.length + 1) expectedId s

/-- The matching loop of `receive_response` with `receive_message`
abstracted to the sequence of already-decoded inbound messages (the
byte-level `receive_response` scans exactly this way): skip every
message that is not a response with the expected id, deliver
`result.unwrap_or(Null)` of the first match. `none` models a stream
that ends before any match (where the real loop fails on the closed
transport). -/
def receive_response_msgs (expectedId : Nat) : List Message → Option Jval
  | [] => none
  | m :: rest =>
      match m.as_response with
      | some r =>
          if r.id = some (.num expectedId) then some (r.result.getD .null)
          else receive_response_msgs expectedId rest
      | none => receive_response_msgs expectedId rest

/-- The client state the claims are about: the id counter behind the
mutex (`Arc<Mutex<u64>>`, starting at 0, lsp.rs line 65) and the
captured capabilities (lsp.rs line 32). -/
structure LspClient where
  id_counter : Nat
  capabilities : Option Jval
deriving DecidableEq

/-- Id allocation in `send_request` (lsp.rs lines 126-130):
`*counter += 1; *counter`, with `u64` wrap-around made explicit. -/
def next_id (counter : Nat) : Nat := (counter + 1) % 2 ^ 64

/-- `send_request` (lsp.rs lines 117-141): allocate the next id, build
the request (`jsonrpc: "2.0"`, the method, the serialized params, the
id), write its frame, then run `receive_response`. There is no state
check of any kind: every call allocates an id and writes the frame.
Returns the updated client, the frames written, and the outcome (the
raw result value; its typed decoding is the caller-side `dec`). -/
def send_request (st : LspClient) (method : String) (params : Jval)
    (input : List Nat) :
    LspClient × List (List Nat) × Except RecvErr (Jval × List Nat) :=
  let id := next_id st.id_counter
  let frame := send_message (.request ⟨some "2.0", method, some params,
    some (.num id)⟩)
  ({st with id_counter := id}, [frame], receive_response id input)

/-- The ids allocated by a sequence of `send_request` calls (each call
described by its method, params and the inbound bytes it reads). -/
def idTrace : List (String × Jval × List Nat) → LspClient → List Nat
  | [], _ => []
  | (m, p, inp) :: rest, st =>
      let r := send_request st m p inp
      r.1.id_counter :: idTrace rest r.1

/-- `notify` (lsp.rs lines 144-152): build the notification
(`jsonrpc: "2.0"`) and write its frame. -/
def notify (method : String) (params : Jval) : List Nat :=
  send_message (.notification ⟨some "2.0", method, some params⟩)

/-- `LspClient::new` / `initialize` (lsp.rs lines 61-89): the client
starts with counter 0 and no capabilities; `initialize` sends the
`"initialize"` request (hence id 1), waits for its response, decodes it
(`dec` models `serde_json::from_value::<InitializeResult>` followed by
`to_value`, both in external crates), stores the capabilities, then
sends the `"initialized"` notification with `Value::Null` params. Every
failure propagates through `?`, so no client value is produced from a
failed handshake. Returns the client and the frames written, in order.
`initParams` is the external-crate serialization of the
`InitializeParams` built at lsp.rs lines 77-81. -/
def LspClient.new (dec : Jval → Except RecvErr Jval) (initParams : Jval)
    (input : List Nat) : Except RecvErr (LspClient × List (List Nat)) :=
  let st0 : LspClient := ⟨0, none⟩
  let r1 := send_request st0 "initialize" initParams input
  match r1.2.2 with
  | .error e => .error e
  | .ok (resultVal, _) =>
      match dec resultVal with
      | .error e => .error e
      | .ok caps =>
          .ok ({r1.1 with capabilities := some caps},
               r1.2.1 ++ [notify "initialized" .null])

/-- `get_context` (lsp.rs lines 92-97): ignores its argument, writes no
frames, and returns `Ok(String::new())`. The first component is the
list of frames written (none). -/
def get_context (_request : String) : List (List Nat) × Except RecvErr String :=
  ([], .ok "")

/-- Does some line of the header block declare a content length? -/
def hasLengthLine (hc : List Char) : Bool := (rustLines hc).any isLengthLine

/-- Messages whose optional fields are not the explicit
`Some(Value::Null)`: such a field serializes to the same `null` as an
absent field, so no decoder could tell them apart. -/
def noExplicitNullOpt : Message → Prop
  | .request r => r.params ≠ some .null ∧ r.id ≠ some .null
  | .response r => r.result ≠ some .null ∧ r.error ≠ some .null ∧
      r.id ≠ some .null
  | .notification n => n.params ≠ some .null

/-! ## Properties and claims -/

/-- `readLine` splits the stream: the line followed by the rest. -/
theorem readLine_append : ∀ s : List Nat, (readLine s).1 ++ (readLine s).2 = s
  | [] => rfl
  | b :: rest => by
      by_cases h : b = 10
      · simp [readLine, h]
      · simp [readLine, h, readLine_append rest]

/-- A line read from a nonempty stream is nonempty (`read_line` returns
0 bytes only at end of stream). -/
theorem readLine_ne_nil (s : List Nat) (h : s ≠ []) : (readLine s).1 ≠ [] := by
  cases s with
  | nil => exact absurd rfl h
  | cons b rest =>
      by_cases hb : b = 10 <;> simp [readLine, hb]

/-- Any fuel beyond the stream length gives the same header split: the
loop stops on its own before the fuel runs out. -/
theorem readHeadersGo_fuel_irrel :
    ∀ (f g : Nat) (acc s : List Nat), s.length < f → s.length < g →
      readHeadersGo f acc s = readHeadersGo g acc s
  | 0, _, _, _, hf, _ => absurd hf (by omega)
  | _ + 1, 0, _, _, _, hg => absurd hg (by omega)
  | f + 1, g + 1, acc, s, hf, hg => by
      rw [readHeadersGo, readHeadersGo]
      split
      · rfl
      · rename_i h
        have happ : (readLine s).1.length + (readLine s).2.length = s.length := by
          rw [← List.length_append, readLine_append s]
        have hpos : 0 < (readLine s).1.length := by
          rw [Bool.or_eq_true, not_or] at h
          have h1 := h.1
          simp only [List.isEmpty_iff] at h1
          exact List.length_pos.mpr (by simpa using h1)
        exact readHeadersGo_fuel_irrel f g _ _ (by omega) (by omega)

/-- Enough fuel makes the writer fuel-independent. -/
theorem natDigitsGo_fuel_irrel :
    ∀ (f g n : Nat), n ≤ f → n ≤ g → natDigitsGo f n = natDigitsGo g n
  | 0, 0, _, _, _ => rfl
  | 0, _ + 1, n, hf, _ => by
      have : n = 0 := by omega
      subst this
      simp [natDigitsGo]
  | _ + 1, 0, n, _, hg => by
      have : n = 0 := by omega
      subst this
      simp [natDigitsGo]
  | f + 1, g + 1, n, hf, hg => by
      rw [natDigitsGo, natDigitsGo]
      split
      · rfl
      · rename_i h
        have hd : n / 10 < n := Nat.div_lt_self (by omega) (by omega)
        rw [natDigitsGo_fuel_irrel f g (n / 10) (by omega) (by omega)]

/-! ## `receive_response` (lsp.rs lines 169-183) and the client -/

/-- The header loop never hands back more stream than it was given. -/
theorem readHeadersGo_rest_le :
    ∀ (fuel : Nat) (acc s : List Nat),
      (readHeadersGo fuel acc s).2.length ≤ s.length
  | 0, _, _ => Nat.le_refl _
  | fuel + 1, acc, s => by
      rw [readHeadersGo]
      have happ : (readLine s).1.length + (readLine s).2.length = s.length := by
        rw [← List.length_append, readLine_append s]
      split
      · show (readLine s).2.length ≤ s.length
        omega
      · have hle := readHeadersGo_rest_le fuel (acc ++ (readLine s).1) (readLine s).2
        omega

/-- On a nonempty stream the header loop consumes at least one byte. -/
theorem readHeaders_rest_lt (s : List Nat) (hs : s ≠ []) :
    (readHeaders s).2.length < s.length := by
  rw [readHeaders, readHeadersGo]
  have happ : (readLine s).1.length + (readLine s).2.length = s.length := by
    rw [← List.length_append, readLine_append s]
  have hpos : 0 < (readLine s).1.length :=
    List.length_pos.mpr (readLine_ne_nil s hs)
  split
  · show (readLine s).2.length < s.length
    omega
  · have hle := readHeadersGo_rest_le s.length ([] ++ (readLine s).1) (readLine s).2
    omega

/-- A successfully decoded frame consumes at least one byte of stream. -/
theorem receive_message_rest_lt (s : List Nat) (m : Message) (rest : List Nat)
    (h : receive_message s = .ok (m, rest)) : rest.length < s.length := by
  cases s with
  | nil =>
      rw [show receive_message [] = Except.error RecvErr.msgParse from rfl] at h
      exact Except.noConfusion h
  | cons b s2 =>
      have hlt := readHeaders_rest_lt (b :: s2) (by simp)
      simp only [receive_message] at h
      split at h
      · exact absurd h (by simp)
      · split at h
        · exact absurd h (by simp)
        · split at h
          · exact absurd h (by simp)
          · split at h
            · exact absurd h (by simp)
            · split at h
              · exact absurd h (by simp)
              · split at h
                · exact absurd h (by simp)
                · rw [Except.ok.injEq, Prod.mk.injEq] at h
                  obtain ⟨-, rfl⟩ := h
                  calc ((readHeaders (b :: s2)).2.drop _).length
                      ≤ (readHeaders (b :: s2)).2.length :=
                        by simp
                    _ < (b :: s2).length := hlt

/-- Any fuel beyond the stream length gives the same outcome: the loop
always terminates on its own first. -/
theorem receiveResponseGo_fuel_irrel :
    ∀ (f g expectedId : Nat) (s : List Nat), s.length < f → s.length < g →
      receiveResponseGo f expectedId s = receiveResponseGo g expectedId s
  | 0, _, _, _, hf, _ => absurd hf (by omega)
  | _ + 1, 0, _, _, _, hg => absurd hg (by omega)
  | f + 1, g + 1, expectedId, s, hf, hg => by
      rw [receiveResponseGo, receiveResponseGo]
      cases h : receive_message s with
      | error e => rfl
      | ok p =>
          obtain ⟨m, rest⟩ := p
          have hlt := receive_message_rest_lt s m rest h
          cases hresp : m.as_response with
          | none =>
              simp only [hresp]
              exact receiveResponseGo_fuel_irrel f g expectedId rest
                (by omega) (by omega)
          | some r =>
              simp only [hresp]
              by_cases hid : r.id = some (.num expectedId)
              · simp [hid]
              · simp only [hid, if_neg, if_false]
                exact receiveResponseGo_fuel_irrel f g expectedId rest
                  (by omega) (by omega)

/-- `Char.ofNat` round-trips through `toNat` below the surrogate range. -/
theorem charToNat_ofNat (n : Nat) (h : n < 55296) : (Char.ofNat n).toNat = n := by
  have hv : Nat.isValidChar n := Or.inl h
  simp [Char.ofNat, hv, Char.ofNatAux, Char.toNat, UInt32.toNat, UInt32.ofNat]

/-- Every byte the decimal writer emits is an ASCII digit. -/
theorem natDigitsGo_bounds :
    ∀ (f n : Nat), ∀ d ∈ natDigitsGo f n, 48 ≤ d ∧ d ≤ 57
  | 0, n => by
      intro d hd
      simp only [natDigitsGo, List.mem_singleton] at hd
      subst hd
      have : n % 10 < 10 := Nat.mod_lt _ (by omega)
      omega
  | f + 1, n => by
      intro d hd
      rw [natDigitsGo] at hd
      split at hd
      · simp only [List.mem_singleton] at hd
        subst hd
        rename_i hn
        omega
      · rw [List.mem_append] at hd
        cases hd with
        | inl hd => exact natDigitsGo_bounds f (n / 10) d hd
        | inr hd =>
            simp only [List.mem_singleton] at hd
            subst hd
            have : n % 10 < 10 := Nat.mod_lt _ (by omega)
            omega

/-- The decimal writer always emits at least one digit. -/
theorem natDigitsGo_ne_nil : ∀ (f n : Nat), natDigitsGo f n ≠ []
  | 0, n => by simp [natDigitsGo]
  | f + 1, n => by
      rw [natDigitsGo]
      split
      · simp
      · simp

/-- Folding one more digit onto a digit string. -/
theorem digitsToNat_concat (A : List Char) (c : Char) :
    digitsToNat (A ++ [c]) = digitsToNat A * 10 + (c.toNat - 48) := by
  simp [digitsToNat, List.foldl_append]

/-- With enough fuel, the decimal writer's digits evaluate back to the
number. -/
theorem natDigitsGo_val :
    ∀ (f n : Nat), n ≤ f → digitsToNat ((natDigitsGo f n).map Char.ofNat) = n
  | 0, n, h => by
      have : n = 0 := by omega
      subst this
      decide
  | f + 1, n, h => by
      rw [natDigitsGo]
      split
      · rename_i hn
        show digitsToNat [Char.ofNat (48 + n)] = n
        have := charToNat_ofNat (48 + n) (by omega)
        simp [digitsToNat, this]
      · rename_i hn
        rw [List.map_append]
        rw [show List.map Char.ofNat [48 + n % 10] =
          [Char.ofNat (48 + n % 10)] from rfl]
        rw [digitsToNat_concat, natDigitsGo_val f (n / 10) (by omega)]
        have := charToNat_ofNat (48 + n % 10) (by
          have : n % 10 < 10 := Nat.mod_lt _ (by omega)
          omega)
        rw [this]
        omega

/-- `parseUsize` reads the decimal writer's digits back: the printed
length always parses. -/
theorem parseUsize_natDigits (n : Nat) (h : n < 2 ^ 64) :
    parseUsize ((natDigits n).map Char.ofNat) = some n := by
  have hb := natDigitsGo_bounds n n
  have hnn := natDigitsGo_ne_nil n n
  rw [parseUsize]
  have hplus : ((natDigits n).map Char.ofNat).head? ≠ some (Char.ofNat 43) := by
    cases hD : natDigits n with
    | nil => exact absurd hD hnn
    | cons d ds =>
        rw [natDigits] at hD
        simp only [hD, List.map_cons, List.head?_cons, ne_eq, Option.some.injEq]
        intro hc
        have hd := hb d (hD ▸ List.mem_cons_self _ _)
        have h1 : (Char.ofNat d).toNat = d := charToNat_ofNat d (by omega)
        have h2 : (Char.ofNat 43).toNat = 43 := by decide
        rw [hc, h2] at h1
        omega
  rw [if_neg hplus]
  have hne : ((natDigits n).map Char.ofNat).isEmpty = false := by
    cases hD : natDigits n with
    | nil => exact absurd hD hnn
    | cons d ds => simp
  rw [hne]
  simp only [Bool.false_eq_true, if_false]
  have hall : ((natDigits n).map Char.ofNat).all isDigitChar = true := by
    rw [List.all_eq_true]
    intro c hc
    rw [List.mem_map] at hc
    obtain ⟨d, hd, rfl⟩ := hc
    have := hb d hd
    rw [isDigitChar, charToNat_ofNat d (by omega)]
    simp
    omega
  rw [hall]
  simp only [if_true]
  have hv : digitsToNat ((natDigits n).map Char.ofNat) = n :=
    natDigitsGo_val n n (Nat.le_refl n)
  rw [hv, if_pos h]

/-- `read_line` takes exactly up to the first line feed. -/
theorem readLine_append_nl :
    ∀ (l t : List Nat), (∀ b ∈ l, b ≠ 10) →
      readLine (l ++ 10 :: t) = (l ++ [10], t)
  | [], t, _ => by simp [readLine]
  | b :: l, t, h => by
      have hb : b ≠ 10 := h b (List.mem_cons_self _ _)
      rw [List.cons_append, readLine]
      rw [if_neg hb,
        readLine_append_nl l t (fun x hx => h x (List.mem_cons_of_mem _ hx))]
      rfl

/-- A block ending in one `\r\n` whose earlier part does not end in a
line feed cannot end in the empty line `\r\n\r\n`. -/
theorem not_crlfcrlf_suffix (A : List Nat) (hA : A.getLast? ≠ some 10) :
    List.isSuffixOf [13, 10, 13, 10] (A ++ [13, 10]) = false := by
  by_contra hcon
  rw [Bool.not_eq_false, List.isSuffixOf_iff_suffix] at hcon
  obtain ⟨t, ht⟩ := hcon
  have ht2 : (t ++ [13, 10]) ++ [13, 10] = A ++ [13, 10] := by
    rw [List.append_assoc]; exact ht
  have hAt : A = t ++ [13, 10] := (List.append_cancel_right ht2).symm
  rw [hAt, show t ++ [13, 10] = (t ++ [13]) ++ [10] from by simp,
    List.getLast?_concat] at hA
  exact hA rfl

/-- ASCII byte lists decode one byte per character (fuel version). -/
theorem utf8DecodeGo_ascii :
    ∀ (fuel : Nat) (l : List Nat), l.length < fuel → (∀ b ∈ l, b < 128) →
      utf8DecodeGo fuel l = some (l.map Char.ofNat)
  | 0, l, hf, _ => absurd hf (by omega)
  | _ + 1, [], _, _ => rfl
  | f + 1, b :: l, hf, h => by
      have hb : b < 128 := h b (List.mem_cons_self _ _)
      rw [utf8DecodeGo, if_pos hb,
        utf8DecodeGo_ascii f l (by simp at hf; omega)
          (fun x hx => h x (List.mem_cons_of_mem _ hx))]
      rfl

/-- ASCII byte lists decode one byte per character. -/
theorem utf8Decode_ascii (l : List Nat) (h : ∀ b ∈ l, b < 128) :
    utf8Decode l = some (l.map Char.ofNat) :=
  utf8DecodeGo_ascii (l.length + 1) l (by omega) h

/-- Splitting never yields an empty list of pieces. -/
theorem splitOnChar_ne_nil (sep : Char) :
    ∀ (l : List Char), splitOnChar sep l ≠ []
  | [] => fun h => List.noConfusion h
  | c :: l => by
      rw [splitOnChar]
      split
      · simp
      · split
        · simp
        · simp

/-- Separator-free text prepends onto the first piece of the split. -/
theorem splitOnChar_append_of_ne (sep : Char) :
    ∀ (l r : List Char) (head : List Char) (tail : List (List Char)),
      (∀ c ∈ l, c ≠ sep) → splitOnChar sep r = head :: tail →
      splitOnChar sep (l ++ r) = (l ++ head) :: tail
  | [], r, head, tail, _, hr => by simpa using hr
  | c :: l, r, head, tail, h, hr => by
      have hc : c ≠ sep := h c (List.mem_cons_self _ _)
      rw [List.cons_append, splitOnChar, if_neg hc]
      rw [splitOnChar_append_of_ne sep l r head tail
        (fun x hx => h x (List.mem_cons_of_mem _ hx)) hr]
      rfl

/-- A separator-free list splits into itself alone. -/
theorem splitOnChar_of_no_sep (sep : Char) (l : List Char)
    (h : ∀ c ∈ l, c ≠ sep) : splitOnChar sep l = [l] := by
  have := splitOnChar_append_of_ne sep l [] [] [] h rfl
  simpa using this

/-- Trimming a leading space off otherwise whitespace-free text. -/
theorem trimChars_space (l : List Char) (hne : l ≠ [])
    (h : ∀ c ∈ l, isTrimWs c = false) :
    trimChars (Char.ofNat 32 :: l) = l := by
  have hdrop : l.dropWhile isTrimWs = l := by
    cases l with
    | nil => rfl
    | cons c cs =>
        rw [List.dropWhile_cons_of_neg (by simp [h c (List.mem_cons_self _ _)])]
  have hdrop2 : l.reverse.dropWhile isTrimWs = l.reverse := by
    cases hrev : l.reverse with
    | nil => rfl
    | cons c cs =>
        have hc : c ∈ l := by
          rw [← List.mem_reverse, hrev]
          exact List.mem_cons_self _ _
        rw [List.dropWhile_cons_of_neg (by simp [h c hc])]
  rw [trimChars, List.dropWhile_cons_of_pos (by decide), hdrop, hdrop2,
    List.reverse_reverse]

/-- The header loop on a well-formed frame: it stops exactly at the
empty line and hands back the body untouched (generic in the digit
block and body). -/
theorem readHeadersGo_frame_core (D B : List Nat) (f : Nat)
    (hDb : ∀ d ∈ D, 48 ≤ d ∧ d ≤ 57) (hDnil : D ≠ []) :
    readHeadersGo (f + 2) []
      (utf8Encode "Content-Length: ".data ++ D ++ [13, 10, 13, 10] ++ B) =
      (utf8Encode "Content-Length: ".data ++ D ++ [13, 10, 13, 10], B) := by
  have hno : ∀ b ∈ utf8Encode "Content-Length: ".data ++ D ++ [13], b ≠ 10 := by
    intro b hb
    rw [List.append_assoc, List.mem_append, List.mem_append] at hb
    rcases hb with hb | hb | hb
    · exact (by decide : ∀ x ∈ utf8Encode "Content-Length: ".data, x ≠ 10) b hb
    · have := hDb b hb; omega
    · simp at hb; omega
  have hsplit : utf8Encode "Content-Length: ".data ++ D ++ [13, 10, 13, 10] ++ B
      = (utf8Encode "Content-Length: ".data ++ D ++ [13]) ++
        10 :: (13 :: 10 :: B) := by simp
  rw [hsplit, readHeadersGo, readLine_append_nl _ _ hno]
  have hlast : (utf8Encode "Content-Length: ".data ++ D).getLast? ≠ some 10 := by
    rw [List.getLast?_append_of_ne_nil _ hDnil]
    cases hg : D.getLast? with
    | none => exact absurd (List.getLast?_eq_none_iff.mp hg) hDnil
    | some d =>
        have := hDb d (List.mem_of_mem_getLast? hg)
        simp only [ne_eq, Option.some.injEq]
        omega
  have hsuf : List.isSuffixOf [13, 10, 13, 10]
      ([] ++ ((utf8Encode "Content-Length: ".data ++ D ++ [13]) ++ [10]))
      = false := by
    rw [List.nil_append,
      show (utf8Encode "Content-Length: ".data ++ D ++ [13]) ++ [10]
        = (utf8Encode "Content-Length: ".data ++ D) ++ [13, 10] from by simp]
    exact not_crlfcrlf_suffix _ hlast
  have hnil : ((utf8Encode "Content-Length: ".data ++ D ++ [13]) ++ [10]).isEmpty
      = false := by simp
  rw [hnil, hsuf]
  simp only [Bool.or_self, Bool.false_eq_true, if_false]
  rw [readHeadersGo, show readLine (13 :: 10 :: B) = ([13, 10], B) from by
    simp [readLine]]
  have hsuf2 : List.isSuffixOf [13, 10, 13, 10]
      (([] ++ ((utf8Encode "Content-Length: ".data ++ D ++ [13]) ++ [10])) ++
        [13, 10]) = true := by
    rw [List.isSuffixOf_iff_suffix]
    exact ⟨utf8Encode "Content-Length: ".data ++ D, by simp⟩
  rw [hsuf2]
  simp

/-- A scan over lines none of which declares a length keeps the running
value. -/
theorem scanLengthLines_no_length :
    ∀ (lines : List (List Char)) (acc : Nat),
      (∀ l ∈ lines, isLengthLine l = false) →
      scanLengthLines lines acc = .ok acc
  | [], _, _ => rfl
  | line :: rest, acc, h => by
      rw [scanLengthLines]
      rw [h line (List.mem_cons_self _ _)]
      simp only [Bool.false_eq_true, if_false]
      exact scanLengthLines_no_length rest acc
        (fun l hl => h l (List.mem_cons_of_mem _ hl))

/-- A header block with no length line declares length 0 (the initial
value of the `content_length` variable, lsp.rs line 187). -/
theorem contentLengthOf_no_length (hc : List Char)
    (h : hasLengthLine hc = false) : contentLengthOf hc = .ok 0 := by
  unfold contentLengthOf
  apply scanLengthLines_no_length
  intro l hl
  rw [hasLengthLine, List.any_eq_false] at h
  simpa using h l hl

/-- Reading back a serialized `Option<Value>` field recovers it, as long
as it is not an explicit `Some(Value::Null)` (which serializes like an
absent field). -/
theorem decodeOptVal_eq (fs : List (String × Jval)) (k : String)
    (o : Option Jval) (hg : getField fs k = some (optValJson o))
    (ho : o ≠ some .null) : decodeOptVal fs k = o := by
  unfold decodeOptVal
  rw [hg]
  cases o with
  | none => rfl
  | some v =>
      cases v with
      | null => exact absurd rfl ho
      | bool b => rfl
      | num n => rfl
      | str s => rfl
      | arr xs => rfl
      | obj fs2 => rfl

/-- Reading back a serialized `Option<String>` field always recovers it. -/
theorem decodeOptStr_eq (fs : List (String × Jval)) (k : String)
    (o : Option String) (hg : getField fs k = some (optStrJson o)) :
    decodeOptStr fs k = some o := by
  unfold decodeOptStr
  rw [hg]
  cases o with
  | none => rfl
  | some s => rfl

/-- An optional field absent from the object reads back as `None`. -/
theorem decodeOptVal_none (fs : List (String × Jval)) (k : String)
    (hg : getField fs k = none) : decodeOptVal fs k = none := by
  unfold decodeOptVal
  rw [hg]

/-- The id trace of a call sequence from counter `c`: successive values
`c+1, c+2, …` as long as the `u64` does not wrap. -/
theorem idTrace_shape (calls : List (String × Jval × List Nat)) :
    ∀ (c : Nat) (caps : Option Jval), c + calls.length < 2 ^ 64 →
      idTrace calls ⟨c, caps⟩ = (List.range calls.length).map (fun i => c + i + 1) := by
  induction calls with
  | nil => intro c caps _; rfl
  | cons hd rest ih =>
      intro c caps h
      obtain ⟨m, p, inp⟩ := hd
      have hc : next_id c = c + 1 :=
        Nat.mod_eq_of_lt (by simp at h; omega)
      show next_id c :: idTrace rest ⟨next_id c, caps⟩ = _
      rw [hc, ih (c + 1) caps (by simp at h; omega)]
      simp only [List.length_cons, List.range_succ_eq_map, List.map_cons,
        List.map_map]
      refine congrArg₂ List.cons (by omega) ?_
      exact List.map_congr_left (fun a _ => by simp [Function.comp]; omega)

/-! ## The claims -/

/-- C2: for every sequence of `send_request` calls on one client (the
counter starts at 0 in `LspClient::new`), as long as the `u64` counter
cannot wrap, the allocated ids are `1, 2, 3, …`: the first is 1, they
are strictly increasing, and none repeats. -/
theorem send_request_ids (calls : List (String × Jval × List Nat))
    (h : calls.length < 2 ^ 64) :
    idTrace calls ⟨0, none⟩ = (List.range calls.length).map (· + 1) ∧
    List.Chain' (· < ·) (idTrace calls ⟨0, none⟩) ∧
    (idTrace calls ⟨0, none⟩).Nodup ∧
    (calls ≠ [] → (idTrace calls ⟨0, none⟩).head? = some 1) := by
  have heq : idTrace calls ⟨0, none⟩ =
      (List.range calls.length).map (· + 1) := by
    rw [idTrace_shape calls 0 none (by omega)]
    exact List.map_congr_left (fun a _ => by omega)
  have hpair : List.Pairwise (· < ·) ((List.range calls.length).map (· + 1)) :=
    (List.pairwise_lt_range _).map _ (fun a b hab => by omega)
  refine ⟨heq, ?_, ?_, ?_⟩
  · rw [heq]; exact hpair.chain'
  · rw [heq]; exact hpair.imp Nat.ne_of_lt
  · intro hne
    rw [heq]
    have : calls.length ≠ 0 := fun h0 => hne (List.length_eq_zero.mp h0)
    obtain ⟨k, hk⟩ := Nat.exists_eq_succ_of_ne_zero this
    rw [hk, List.range_succ_eq_map]
    rfl

/-- C2 witness: three calls allocate exactly the ids 1, 2, 3. -/
theorem send_request_ids_witness :
    ([("a", Jval.null, ([] : List Nat)), ("b", .null, []),
        ("c", .null, [])] : List (String × Jval × List Nat)).length < 2 ^ 64 ∧
    idTrace [("a", Jval.null, ([] : List Nat)), ("b", .null, []),
        ("c", .null, [])] ⟨0, none⟩ = [1, 2, 3] := by
  refine ⟨by decide, ?_⟩
  rw [(send_request_ids [("a", Jval.null, ([] : List Nat)), ("b", .null, []),
    ("c", .null, [])] (by decide)).1]
  rfl

/-- C7: while a request with id `k` is pending, the response loop skips
every inbound message that is not a response carrying id `k` — other
ids, never-issued ids, notifications — without error, and still
resolves the caller with the first response whose id is `k` (delivering
its `result.unwrap_or(Null)`). -/
theorem receive_response_ignores_unmatched (k : Nat) (pre post : List Message)
    (r : Response)
    (hpre : ∀ m ∈ pre, m.as_response.map Response.id ≠ some (some (.num k)))
    (hr : r.id = some (.num k)) :
    receive_response_msgs k (pre ++ .response r :: post) =
      some (r.result.getD .null) := by
  induction pre with
  | nil =>
      simp only [List.nil_append, receive_response_msgs, Message.as_response]
      rw [if_pos hr]
  | cons m pre ih =>
      rw [List.cons_append, receive_response_msgs]
      cases hresp : m.as_response with
      | none =>
          exact ih (fun x hx => hpre x (List.mem_cons_of_mem _ hx))
      | some s =>
          have hne : s.id ≠ some (.num k) := by
            have := hpre m (List.mem_cons_self _ _)
            rw [hresp] at this
            simpa using this
          simp only [if_neg hne]
          exact ih (fun x hx => hpre x (List.mem_cons_of_mem _ hx))

/-- C7 witness: a notification and a response with the foreign id 99 are
skipped; the waiting caller for id 1 gets the result of the first
response with id 1. -/
theorem receive_response_ignores_unmatched_witness :
    (∀ m ∈ ([.notification ⟨some "2.0", "log", none⟩,
        .response ⟨some "2.0", some (.str "other"), none, some (.num 99)⟩] :
          List Message),
      m.as_response.map Response.id ≠ some (some (.num 1))) ∧
    (some (.num 1) : Option Jval) = some (.num 1) ∧
    receive_response_msgs 1
      ([.notification ⟨some "2.0", "log", none⟩,
        .response ⟨some "2.0", some (.str "other"), none, some (.num 99)⟩] ++
        .response ⟨some "2.0", some (.str "mine"), none, some (.num 1)⟩ ::
          []) = some (.str "mine") :=
  ⟨by decide, rfl,
    receive_response_ignores_unmatched 1 _ []
      ⟨some "2.0", some (.str "mine"), none, some (.num 1)⟩ (by decide) rfl⟩

/-- C6: construction only succeeds through the full handshake, in
order: if `LspClient.new` returns a client, its capabilities are set
(non-empty), the initialize request (id 1) frame was written first and
the `initialized` notification frame second; and if the initialize
exchange fails — the response wait fails, or its result does not decode
— `new` returns that error, so no client is ever produced from a failed
handshake. -/
theorem new_handshake (dec : Jval → Except RecvErr Jval) (initParams : Jval)
    (input : List Nat) :
    (∀ c frames, LspClient.new dec initParams input = .ok (c, frames) →
      c.capabilities.isSome = true ∧ c.id_counter = 1 ∧
      frames = [send_message (.request ⟨some "2.0", "initialize",
          some initParams, some (.num 1)⟩),
        notify "initialized" .null]) ∧
    (∀ e, receive_response 1 input = .error e →
      LspClient.new dec initParams input = .error e) ∧
    (∀ v rest e, receive_response 1 input = .ok (v, rest) →
      dec v = .error e →
      LspClient.new dec initParams input = .error e) := by
  have hid : next_id 0 = 1 := rfl
  refine ⟨?_, ?_, ?_⟩
  · intro c frames hok
    cases hrr : receive_response 1 input with
    | error e =>
        have hnew : LspClient.new dec initParams input = .error e := by
          simp only [LspClient.new, send_request, hid, hrr]
        rw [hnew] at hok
        exact absurd hok (by simp)
    | ok p =>
        obtain ⟨v, rest⟩ := p
        cases hdec : dec v with
        | error e =>
            have hnew : LspClient.new dec initParams input = .error e := by
              simp only [LspClient.new, send_request, hid, hrr, hdec]
            rw [hnew] at hok
            exact absurd hok (by simp)
        | ok caps =>
            have hnew : LspClient.new dec initParams input =
                .ok (⟨1, some caps⟩,
                  [send_message (.request ⟨some "2.0", "initialize",
                    some initParams, some (.num 1)⟩),
                   notify "initialized" .null]) := by
              simp only [LspClient.new, send_request, hid, hrr, hdec,
                Nat.cast_one, List.singleton_append]
            rw [hnew] at hok
            rw [Except.ok.injEq, Prod.mk.injEq] at hok
            obtain ⟨rfl, rfl⟩ := hok
            exact ⟨rfl, rfl, rfl⟩
  · intro e hrr
    simp only [LspClient.new, send_request, hid, hrr]
  · intro v rest e hrr hdec
    simp only [LspClient.new, send_request, hid, hrr, hdec]

/-- C6 witness: against a stream holding one successful initialize
response (id 1), construction succeeds with the capabilities captured
and exactly the two handshake frames written in order. -/
theorem new_handshake_witness :
    (LspClient.mk 1 (some (.obj [("capabilities", .obj [])]))).capabilities.isSome
        = true ∧
    (LspClient.mk 1 (some (.obj [("capabilities", .obj [])]))).id_counter = 1 ∧
    [send_message (.request ⟨some "2.0", "initialize", some (.obj []),
        some (.num 1)⟩), notify "initialized" .null] =
      [send_message (.request ⟨some "2.0", "initialize", some (.obj []),
        some (.num 1)⟩), notify "initialized" .null] :=
  (new_handshake Except.ok (.obj [])
      (send_message (.response ⟨some "2.0",
        some (.obj [("capabilities", .obj [])]), none, some (.num 1)⟩))).1
    _ _ rfl

/-- C10: for every input string, `get_context` performs no request
(writes no frames) and returns `Ok` of the empty string — a constant
function, independent of its input. -/
theorem get_context_constant (request : String) :
    get_context request = ([], .ok "") := rfl

/-- C3 (the code contradicts the claim): when the server answers the
pending request (id 1) with an explicit error object and no result,
`receive_response` delivers `Null` — the `unwrap_or(Value::Null)` of the
absent `result` — to the caller's result decoder, for EVERY error object
`e`: the error is discarded, never delivered. The second conjunct runs
the byte-level pipeline on a concrete error response frame: the caller
is handed `Null`, with the error object gone. -/
theorem receive_response_discards_error :
    (∀ e : Jval,
      receive_response_msgs 1
        [.response ⟨some "2.0", none, some e, some (.num 1)⟩] = some .null) ∧
    receive_response 1
      (send_message (.response ⟨some "2.0", none,
        some (.obj [("code", .num (-32601)), ("message", .str "method not found")]),
        some (.num 1)⟩)) = .ok (.null, []) :=
  ⟨fun _ => rfl, rfl⟩

/-- C9 counterexample: with the transport closed (no inbound bytes
left), `send_request` still writes a request frame and still consumes an
id (the counter moves from 1 to 2); the failure it reports comes from
the attempt to decode a response from the closed stream, not from any
state check — there is no `InvalidState`/`ConnectionClosed` fail-fast
path and no "performs no I/O" behavior. -/
theorem send_request_closed_transport_cex :
    (send_request ⟨1, some (.obj [])⟩ "textDocument/documentSymbol" .null
      []).2.1 ≠ [] ∧
    (send_request ⟨1, some (.obj [])⟩ "textDocument/documentSymbol" .null
      []).1.id_counter = 2 ∧
    (send_request ⟨1, some (.obj [])⟩ "textDocument/documentSymbol" .null
      []).2.2 = .error .msgParse :=
  ⟨by decide, rfl, rfl⟩

/-- C9 amended: `send_request` has no connection-state guard at all —
for every client state, method, params and inbound stream it
unconditionally allocates the next id, writes exactly the one request
frame, and goes on to wait for the response. -/
theorem send_request_unconditional (st : LspClient) (method : String)
    (params : Jval) (input : List Nat) :
    send_request st method params input =
      ({st with id_counter := next_id st.id_counter},
       [send_message (.request ⟨some "2.0", method, some params,
         some (.num (next_id st.id_counter))⟩)],
       receive_response (next_id st.id_counter) input) := rfl

/-- C4 counterexample: a header block with no length field (here the
bare empty line `\r\n`) does NOT produce a framing (length-parse)
error: the decoder proceeds with the initial length 0, reads an empty
body and fails only when parsing that body as a message. -/
theorem receive_message_missing_length_cex :
    receive_message [13, 10] = .error .msgParse ∧
    receive_message [13, 10] ≠ .error .lengthParse :=
  ⟨rfl, by decide⟩

/-- C1 counterexample: decoding the encoding of a `Notification` does
not give back the notification — the untagged `Message` decoder tries
`Request` first, and a notification body (no `id` field) satisfies the
all-optional-but-`method` `Request` shape, so the round trip returns a
`Request` with `id: None`: the classification is not preserved. -/
theorem decode_encode_misclassifies_notification :
    receive_message (send_message
      (.notification ⟨some "2.0", "initialized", some (.obj [])⟩)) =
      .ok (.request ⟨some "2.0", "initialized", some (.obj []), none⟩, []) ∧
    receive_message (send_message
      (.notification ⟨some "2.0", "initialized", some (.obj [])⟩)) ≠
      .ok (.notification ⟨some "2.0", "initialized", some (.obj [])⟩, []) :=
  ⟨rfl, by decide⟩

/-- The serde round trip (the serialization layer inside
`send_message`/`receive_message`) restores `Request`s and `Response`s
exactly, as long as no optional field is the explicit `Some(Value::Null)`
that serializes identically to an absent field; a `Notification`,
however, always comes back as a `Request` with the same method and
params and no id, because the untagged decoder tries `Request` first. -/
theorem fromJson_toJson (m : Message)
    (h : noExplicitNullOpt m) :
    Message.fromJson m.toJson = some (match m with
      | .notification n => .request ⟨n.jsonrpc, n.method, n.params, none⟩
      | _ => m) := by
  cases m with
  | request r =>
      obtain ⟨j, mth, p, i⟩ := r
      obtain ⟨hp, hi⟩ := h
      show Message.fromJson (.obj [("jsonrpc", optStrJson j),
        ("method", Jval.str mth), ("params", optValJson p), ("id", optValJson i)]) = _
      rw [Message.fromJson, Request.fromJson]
      rw [decodeOptStr_eq [("jsonrpc", optStrJson j),
        ("method", Jval.str mth), ("params", optValJson p), ("id", optValJson i)] "jsonrpc" j rfl]
      rw [show decodeStrField [("jsonrpc", optStrJson j),
        ("method", Jval.str mth), ("params", optValJson p), ("id", optValJson i)] "method" = some mth from rfl]
      rw [decodeOptVal_eq [("jsonrpc", optStrJson j),
        ("method", Jval.str mth), ("params", optValJson p), ("id", optValJson i)] "params" p rfl hp]
      rw [decodeOptVal_eq [("jsonrpc", optStrJson j),
        ("method", Jval.str mth), ("params", optValJson p), ("id", optValJson i)] "id" i rfl hi]
  | response r =>
      obtain ⟨j, res, err, i⟩ := r
      obtain ⟨hres, herr, hi⟩ := h
      show Message.fromJson (.obj [("jsonrpc", optStrJson j),
        ("result", optValJson res), ("error", optValJson err),
        ("id", optValJson i)]) = _
      rw [Message.fromJson, Request.fromJson]
      rw [decodeOptStr_eq [("jsonrpc", optStrJson j),
        ("result", optValJson res), ("error", optValJson err),
        ("id", optValJson i)] "jsonrpc" j rfl]
      rw [show decodeStrField [("jsonrpc", optStrJson j),
        ("result", optValJson res), ("error", optValJson err),
        ("id", optValJson i)] "method" = none from rfl]
      rw [Response.fromJson, decodeOptStr_eq [("jsonrpc", optStrJson j),
        ("result", optValJson res), ("error", optValJson err),
        ("id", optValJson i)] "jsonrpc" j rfl]
      rw [decodeOptVal_eq [("jsonrpc", optStrJson j),
        ("result", optValJson res), ("error", optValJson err),
        ("id", optValJson i)] "result" res rfl hres]
      rw [decodeOptVal_eq [("jsonrpc", optStrJson j),
        ("result", optValJson res), ("error", optValJson err),
        ("id", optValJson i)] "error" err rfl herr]
      rw [decodeOptVal_eq [("jsonrpc", optStrJson j),
        ("result", optValJson res), ("error", optValJson err),
        ("id", optValJson i)] "id" i rfl hi]
  | notification n =>
      obtain ⟨j, mth, p⟩ := n
      have hp := h
      show Message.fromJson (.obj [("jsonrpc", optStrJson j),
        ("method", Jval.str mth), ("params", optValJson p)]) = _
      rw [Message.fromJson, Request.fromJson]
      rw [decodeOptStr_eq [("jsonrpc", optStrJson j),
        ("method", Jval.str mth), ("params", optValJson p)] "jsonrpc" j rfl]
      rw [show decodeStrField [("jsonrpc", optStrJson j),
        ("method", Jval.str mth), ("params", optValJson p)] "method" = some mth from rfl]
      rw [decodeOptVal_eq [("jsonrpc", optStrJson j),
        ("method", Jval.str mth), ("params", optValJson p)] "params" p rfl hp]
      rw [decodeOptVal_none [("jsonrpc", optStrJson j),
        ("method", Jval.str mth), ("params", optValJson p)] "id" rfl]

/-- C4 amended: a `content-length` line whose value does not parse as a
number aborts `receive_message` with that length-parse (framing) error
before any body is read; but a header block with NO length line does
not produce a framing error — the decoder proceeds with length 0, reads
an empty body, and fails with the message-parse error for it. -/
theorem receive_message_length_errors (s : List Nat) (hc : List Char)
    (hdec : utf8Decode (readHeaders s).1 = some hc) :
    (∀ e, contentLengthOf hc = .error e → receive_message s = .error e) ∧
    (hasLengthLine hc = false → receive_message s = .error .msgParse) := by
  constructor
  · intro e he
    simp only [receive_message, hdec, he]
  · intro hnl
    have h0 : contentLengthOf hc = .ok 0 := contentLengthOf_no_length hc hnl
    simp only [receive_message, hdec, h0, Nat.not_lt_zero, if_false,
      List.take_zero]
    rfl

/-- C4 amended, witness: a non-numeric length value yields the framing
error; a header with no length line at all yields the body-parse
error instead. -/
theorem receive_message_length_errors_witness :
    utf8Decode (readHeaders (utf8Encode "Content-Length: abc\r\n\r\n".data)).1
        = some "Content-Length: abc\r\n\r\n".data ∧
    contentLengthOf "Content-Length: abc\r\n\r\n".data
        = .error .lengthParse ∧
    receive_message (utf8Encode "Content-Length: abc\r\n\r\n".data)
        = .error .lengthParse ∧
    utf8Decode (readHeaders (utf8Encode "X-Other: 1\r\n\r\n".data)).1
        = some "X-Other: 1\r\n\r\n".data ∧
    hasLengthLine "X-Other: 1\r\n\r\n".data = false ∧
    receive_message (utf8Encode "X-Other: 1\r\n\r\n".data)
        = .error .msgParse :=
  ⟨rfl, rfl,
    (receive_message_length_errors (utf8Encode "Content-Length: abc\r\n\r\n".data)
      "Content-Length: abc\r\n\r\n".data rfl).1 .lengthParse rfl,
    rfl, rfl,
    (receive_message_length_errors (utf8Encode "X-Other: 1\r\n\r\n".data)
      "X-Other: 1\r\n\r\n".data rfl).2 rfl⟩

/-- C5: no partial frame is ever delivered — whenever the header block
declares a body length larger than the bytes remaining on the stream,
`receive_message` returns the end-of-stream error (the `read_exact`
failure), never a message built from fewer bytes; being a total
function of the stream, it cannot hang. -/
theorem receive_message_no_partial_frame (s : List Nat) (hc : List Char)
    (n : Nat) (hdec : utf8Decode (readHeaders s).1 = some hc)
    (hlen : contentLengthOf hc = .ok n)
    (hshort : (readHeaders s).2.length < n) :
    receive_message s = .error .eof := by
  simp only [receive_message, hdec, hlen, if_pos hshort]

/-- C5 witness: the spec's scenario — `content-length: 13` followed by
only 10 bytes of body and end of stream fails with the end-of-stream
error. -/
theorem receive_message_no_partial_frame_witness :
    utf8Decode
        (readHeaders (utf8Encode "content-length: 13\r\n\r\n0123456789".data)).1
      = some "content-length: 13\r\n\r\n".data ∧
    contentLengthOf "content-length: 13\r\n\r\n".data = .ok 13 ∧
    (readHeaders (utf8Encode "content-length: 13\r\n\r\n0123456789".data)).2.length
      < 13 ∧
    receive_message (utf8Encode "content-length: 13\r\n\r\n0123456789".data)
      = .error .eof :=
  ⟨rfl, rfl, by decide,
    receive_message_no_partial_frame
      (utf8Encode "content-length: 13\r\n\r\n0123456789".data)
      "content-length: 13\r\n\r\n".data 13 rfl rfl (by decide)⟩

/-- `readHeaders` on an encoded frame: the declared header block (ending
in the empty line), then exactly the body. -/
theorem readHeaders_frame (content : String) :
    readHeaders (frameOf content) =
      (utf8Encode "Content-Length: ".data ++
        natDigits (utf8Encode content.data).length ++ [13, 10, 13, 10],
       utf8Encode content.data) := by
  have hDb : ∀ d ∈ natDigits (utf8Encode content.data).length,
      48 ≤ d ∧ d ≤ 57 := natDigitsGo_bounds _ _
  have hDnil : natDigits (utf8Encode content.data).length ≠ [] :=
    natDigitsGo_ne_nil _ _
  have hframe : frameOf content =
      utf8Encode "Content-Length: ".data ++
        natDigits (utf8Encode content.data).length ++ [13, 10, 13, 10] ++
        utf8Encode content.data := by
    rw [frameOf,
      show utf8Encode "\r\n\r\n".data = [13, 10, 13, 10] from rfl]
  rw [readHeaders, hframe]
  have hirr := readHeadersGo_fuel_irrel
    ((utf8Encode "Content-Length: ".data ++
      natDigits (utf8Encode content.data).length ++ [13, 10, 13, 10] ++
      utf8Encode content.data).length + 1)
    ((utf8Encode "Content-Length: ".data ++
      natDigits (utf8Encode content.data).length ++ [13, 10, 13, 10] ++
      utf8Encode content.data).length + 2)
    []
    (utf8Encode "Content-Length: ".data ++
      natDigits (utf8Encode content.data).length ++ [13, 10, 13, 10] ++
      utf8Encode content.data)
    (by omega) (by omega)
  rw [hirr]
  exact readHeadersGo_frame_core _ _ _ hDb hDnil

/-- A digit character is none of the characters the header scan treats
specially: not a line feed, not the colon, not whitespace. -/
theorem digitChar_facts (c : Char) (h48 : 48 ≤ c.toNat) (h57 : c.toNat ≤ 57) :
    c ≠ Char.ofNat 10 ∧ c ≠ ':' ∧ isTrimWs c = false := by
  have hne : ∀ m : Nat, m < 55296 → c.toNat ≠ m → c ≠ Char.ofNat m := by
    intro m hm hnm hc
    rw [hc, charToNat_ofNat m hm] at hnm
    exact hnm rfl
  have hcolon : (':' : Char).toNat = 58 := by decide
  refine ⟨hne 10 (by omega) (by omega), fun hc => ?_, ?_⟩
  · rw [hc, hcolon] at h57
    omega
  · rw [isTrimWs]
    simp only [Bool.or_eq_false_iff, decide_eq_false_iff_not]
    exact ⟨⟨⟨hne 32 (by omega) (by omega), hne 9 (by omega) (by omega)⟩,
      hne 10 (by omega) (by omega)⟩, hne 13 (by omega) (by omega)⟩

/-- The decoder-side scan of the encoder-produced header block reads
back exactly the declared length. -/
theorem contentLengthOf_header (n : Nat) (h : n < 2 ^ 64) :
    contentLengthOf ("Content-Length: ".data ++ (natDigits n).map Char.ofNat ++
      [Char.ofNat 13, Char.ofNat 10, Char.ofNat 13, Char.ofNat 10]) = .ok n := by
  have hchars : ∀ c ∈ (natDigits n).map Char.ofNat,
      48 ≤ c.toNat ∧ c.toNat ≤ 57 := by
    intro c hc
    rw [List.mem_map] at hc
    obtain ⟨d, hd, rfl⟩ := hc
    have := natDigitsGo_bounds n n d hd
    rw [charToNat_ofNat d (by omega)]
    exact this
  have hfacts : ∀ c ∈ (natDigits n).map Char.ofNat,
      c ≠ Char.ofNat 10 ∧ c ≠ ':' ∧ isTrimWs c = false := by
    intro c hc
    have := hchars c hc
    exact digitChar_facts c this.1 this.2
  have hdnil : (natDigits n).map Char.ofNat ≠ [] := by
    intro hmap
    exact natDigitsGo_ne_nil n n (List.map_eq_nil_iff.mp hmap)
  have hsplit10 : splitOnChar (Char.ofNat 10)
      ("Content-Length: ".data ++ (natDigits n).map Char.ofNat ++
        [Char.ofNat 13, Char.ofNat 10, Char.ofNat 13, Char.ofNat 10]) =
      (("Content-Length: ".data ++ (natDigits n).map Char.ofNat) ++
        [Char.ofNat 13]) :: [[Char.ofNat 13], []] := by
    refine splitOnChar_append_of_ne (Char.ofNat 10)
      ("Content-Length: ".data ++ (natDigits n).map Char.ofNat)
      [Char.ofNat 13, Char.ofNat 10, Char.ofNat 13, Char.ofNat 10]
      [Char.ofNat 13] [[Char.ofNat 13], []] ?_ (by decide)
    intro c hc
    rw [List.mem_append] at hc
    rcases hc with hc | hc
    · exact (by decide : ∀ x ∈ "Content-Length: ".data, x ≠ Char.ofNat 10) c hc
    · exact (hfacts c hc).1
  have hlines : rustLines
      ("Content-Length: ".data ++ (natDigits n).map Char.ofNat ++
        [Char.ofNat 13, Char.ofNat 10, Char.ofNat 13, Char.ofNat 10]) =
      ["Content-Length: ".data ++ (natDigits n).map Char.ofNat, []] := by
    rw [rustLines, hsplit10]
    rw [show ((("Content-Length: ".data ++ (natDigits n).map Char.ofNat) ++
        [Char.ofNat 13]) :: [[Char.ofNat 13], []]).getLast? = some [] from rfl]
    rw [if_pos rfl]
    rw [show ((("Content-Length: ".data ++ (natDigits n).map Char.ofNat) ++
        [Char.ofNat 13]) :: [[Char.ofNat 13], []]).dropLast =
      [("Content-Length: ".data ++ (natDigits n).map Char.ofNat) ++
        [Char.ofNat 13], [Char.ofNat 13]] from rfl]
    rw [List.map_cons, List.map_cons, List.map_nil]
    rw [show stripCr [Char.ofNat 13] = [] from by decide]
    rw [stripCr, List.getLast?_concat, if_pos rfl, List.dropLast_concat]
  rw [contentLengthOf, hlines, scanLengthLines]
  have hlenline : isLengthLine
      ("Content-Length: ".data ++ (natDigits n).map Char.ofNat) = true := by
    rw [isLengthLine, List.map_append]
    rw [show List.map asciiLower "Content-Length: ".data =
      "content-length:".data ++ [Char.ofNat 32] from by decide]
    rw [List.append_assoc, List.isPrefixOf_iff_prefix]
    exact List.prefix_append _ _
  rw [hlenline]
  simp only [if_true]
  have hcolon : splitOnChar ':'
      ("Content-Length: ".data ++ (natDigits n).map Char.ofNat) =
      ["Content-Length".data,
        Char.ofNat 32 :: (natDigits n).map Char.ofNat] := by
    rw [show ("Content-Length: ".data : List Char) =
      "Content-Length".data ++ ':' :: [Char.ofNat 32] from by decide]
    rw [List.append_assoc]
    have hr : splitOnChar ':'
        ((':' :: [Char.ofNat 32]) ++ (natDigits n).map Char.ofNat) =
        [] :: [Char.ofNat 32 :: (natDigits n).map Char.ofNat] := by
      rw [List.cons_append, List.singleton_append, splitOnChar, if_pos rfl]
      rw [splitOnChar_of_no_sep ':' _ ?_]
      intro c hc
      rcases List.mem_cons.mp hc with hc | hc
      · subst hc; decide
      · exact (hfacts c hc).2.1
    have hK := splitOnChar_append_of_ne ':' "Content-Length".data
      ((':' :: [Char.ofNat 32]) ++ (natDigits n).map Char.ofNat)
      [] [Char.ofNat 32 :: (natDigits n).map Char.ofNat]
      (by decide) hr
    simpa using hK
  rw [hcolon]
  show (match parseUsize (trimChars
      (Char.ofNat 32 :: (natDigits n).map Char.ofNat)) with
    | some n2 => scanLengthLines [[]] n2
    | none => Except.error RecvErr.lengthParse) = Except.ok n
  have htrim : trimChars (Char.ofNat 32 :: (natDigits n).map Char.ofNat) =
      (natDigits n).map Char.ofNat :=
    trimChars_space _ hdnil (fun c hc => (hfacts c hc).2.2)
  rw [htrim, parseUsize_natDigits n h]
  exact scanLengthLines_no_length [[]] n (by decide)

/-- C8: for every encoded message, the frame is
`"Content-Length: " ++ digits ++ "\r\n\r\n" ++ body` where the header
block is terminated by the empty line and the decimal `digits` — as read
back by the decoder's own case-insensitive scan — equal the length in
BYTES of the UTF-8 body that follows (`content.len()`), not its
character count. -/
theorem send_message_content_length (m : Message)
    (h : (utf8Encode (render m.toJson).data).length < 2 ^ 64) :
    (readHeaders (send_message m)).1 =
      utf8Encode "Content-Length: ".data ++
        natDigits (utf8Encode (render m.toJson).data).length ++
        [13, 10, 13, 10] ∧
    (readHeaders (send_message m)).2 = utf8Encode (render m.toJson).data ∧
    utf8Decode (readHeaders (send_message m)).1 =
      some ("Content-Length: ".data ++
        (natDigits (utf8Encode (render m.toJson).data).length).map Char.ofNat ++
        [Char.ofNat 13, Char.ofNat 10, Char.ofNat 13, Char.ofNat 10]) ∧
    contentLengthOf ("Content-Length: ".data ++
        (natDigits (utf8Encode (render m.toJson).data).length).map Char.ofNat ++
        [Char.ofNat 13, Char.ofNat 10, Char.ofNat 13, Char.ofNat 10]) =
      .ok (utf8Encode (render m.toJson).data).length := by
  have hrh := readHeaders_frame (render m.toJson)
  have h1 : (readHeaders (send_message m)).1 =
      utf8Encode "Content-Length: ".data ++
        natDigits (utf8Encode (render m.toJson).data).length ++
        [13, 10, 13, 10] := by
    rw [send_message, hrh]
  have h2 : (readHeaders (send_message m)).2 =
      utf8Encode (render m.toJson).data := by
    rw [send_message, hrh]
  refine ⟨h1, h2, ?_, contentLengthOf_header _ h⟩
  rw [h1]
  rw [utf8Decode_ascii _ ?bound]
  case bound =>
    intro b hb
    rw [List.append_assoc, List.mem_append, List.mem_append] at hb
    rcases hb with hb | hb | hb
    · exact (by decide : ∀ x ∈ utf8Encode "Content-Length: ".data, x < 128)
        b hb
    · have := natDigitsGo_bounds _ _ b hb
      omega
    · simp at hb
      omega
  rw [List.map_append, List.map_append]
  rw [show List.map Char.ofNat (utf8Encode "Content-Length: ".data) =
    "Content-Length: ".data from by decide]
  rfl

/-- C8 witness: a concrete notification frame declares exactly its
body's byte length. -/
theorem send_message_content_length_witness :
    (utf8Encode (render (Message.notification
        ⟨some "2.0", "initialized", some .null⟩).toJson).data).length
      < 2 ^ 64 ∧
    (readHeaders (send_message (.notification
        ⟨some "2.0", "initialized", some .null⟩))).2 =
      utf8Encode (render (Message.notification
        ⟨some "2.0", "initialized", some .null⟩).toJson).data :=
  ⟨by decide,
    (send_message_content_length
      (.notification ⟨some "2.0", "initialized", some .null⟩)
      (by decide)).2.1⟩


/-- A character's scalar value is below the surrogate range or between
it and 0x110000 (the `Char` validity invariant, unfolded). -/
theorem char_val_ranges (c : Char) :
    c.toNat < 0xD800 ∨ (0xDFFF < c.toNat ∧ c.toNat < 0x110000) := c.valid

/-- Decoding one encoded multi-byte character: `utf8Step` accepts
exactly the bytes `utf8Char` emits and recovers the scalar value. -/
theorem utf8Step_char (c : Char) (t : List Nat) (h : 0x80 ≤ c.toNat) :
    utf8Step ((utf8Char c).headI) ((utf8Char c).tail ++ t) =
      some (c.toNat, t) := by
  have hval := char_val_ranges c
  by_cases h2 : c.toNat < 0x800
  · have hchar : utf8Char c = [0xC0 + c.toNat / 64, 0x80 + c.toNat % 64] := by
      rw [utf8Char, if_neg (by omega), if_pos h2]
    rw [hchar]
    show utf8Step (0xC0 + c.toNat / 64) ((0x80 + c.toNat % 64) :: t) = _
    rw [utf8Step, if_neg (by omega), if_pos (by omega)]
    have hcont : isCont (0x80 + c.toNat % 64) = true := by
      rw [isCont]
      have : c.toNat % 64 < 64 := Nat.mod_lt _ (by omega)
      simp
      omega
    show (if isCont (0x80 + c.toNat % 64) then
      some ((0xC0 + c.toNat / 64 - 0xC0) * 64 + (0x80 + c.toNat % 64 - 0x80), t)
      else none) = _
    rw [hcont, if_pos rfl]
    have : (0xC0 + c.toNat / 64 - 0xC0) * 64 + (0x80 + c.toNat % 64 - 0x80)
        = c.toNat := by omega
    rw [this]
  · by_cases h3 : c.toNat < 0x10000
    · have hchar : utf8Char c = [0xE0 + c.toNat / 4096,
          0x80 + c.toNat / 64 % 64, 0x80 + c.toNat % 64] := by
        rw [utf8Char, if_neg (by omega), if_neg (by omega), if_pos h3]
      rw [hchar]
      show utf8Step (0xE0 + c.toNat / 4096)
        ((0x80 + c.toNat / 64 % 64) :: (0x80 + c.toNat % 64) :: t) = _
      have hd : c.toNat / 4096 < 16 := by omega
      rw [utf8Step, if_neg (by omega), if_neg (by omega), if_pos (by omega)]
      show (if (isCont (0x80 + c.toNat / 64 % 64) && isCont (0x80 + c.toNat % 64) &&
          decide (0x800 ≤ (0xE0 + c.toNat / 4096 - 0xE0) * 4096 +
            (0x80 + c.toNat / 64 % 64 - 0x80) * 64 + (0x80 + c.toNat % 64 - 0x80)) &&
          (decide ((0xE0 + c.toNat / 4096 - 0xE0) * 4096 +
            (0x80 + c.toNat / 64 % 64 - 0x80) * 64 + (0x80 + c.toNat % 64 - 0x80) < 0xD800) ||
           decide (0xE000 ≤ (0xE0 + c.toNat / 4096 - 0xE0) * 4096 +
            (0x80 + c.toNat / 64 % 64 - 0x80) * 64 + (0x80 + c.toNat % 64 - 0x80)))) then
        some ((0xE0 + c.toNat / 4096 - 0xE0) * 4096 +
          (0x80 + c.toNat / 64 % 64 - 0x80) * 64 + (0x80 + c.toNat % 64 - 0x80), t)
        else none) = _
      have hn : (0xE0 + c.toNat / 4096 - 0xE0) * 4096 +
          (0x80 + c.toNat / 64 % 64 - 0x80) * 64 + (0x80 + c.toNat % 64 - 0x80)
          = c.toNat := by omega
      rw [hn]
      have hcond : (isCont (0x80 + c.toNat / 64 % 64) &&
          isCont (0x80 + c.toNat % 64) && decide (0x800 ≤ c.toNat) &&
          (decide (c.toNat < 0xD800) || decide (0xE000 ≤ c.toNat))) = true := by
        simp only [isCont, Bool.and_eq_true, Bool.or_eq_true,
          decide_eq_true_eq]
        refine ⟨⟨⟨⟨by omega, by omega⟩, ⟨by omega, by omega⟩⟩, by omega⟩, ?_⟩
        rcases hval with hv | hv
        · left; omega
        · right; omega
      rw [hcond, if_pos rfl]
    · have h4 : c.toNat < 0x110000 := by
        rcases hval with hv | hv
        · omega
        · omega
      have hchar : utf8Char c = [0xF0 + c.toNat / 262144,
          0x80 + c.toNat / 4096 % 64, 0x80 + c.toNat / 64 % 64,
          0x80 + c.toNat % 64] := by
        rw [utf8Char, if_neg (by omega), if_neg (by omega), if_neg (by omega)]
      rw [hchar]
      show utf8Step (0xF0 + c.toNat / 262144)
        ((0x80 + c.toNat / 4096 % 64) :: (0x80 + c.toNat / 64 % 64) ::
          (0x80 + c.toNat % 64) :: t) = _
      have hd : c.toNat / 262144 < 5 := by omega
      rw [utf8Step, if_neg (by omega), if_neg (by omega), if_neg (by omega),
        if_pos (by omega)]
      show (if (isCont (0x80 + c.toNat / 4096 % 64) &&
          isCont (0x80 + c.toNat / 64 % 64) && isCont (0x80 + c.toNat % 64) &&
          decide (0x10000 ≤ (0xF0 + c.toNat / 262144 - 0xF0) * 262144 +
            (0x80 + c.toNat / 4096 % 64 - 0x80) * 4096 +
            (0x80 + c.toNat / 64 % 64 - 0x80) * 64 + (0x80 + c.toNat % 64 - 0x80)) &&
          decide ((0xF0 + c.toNat / 262144 - 0xF0) * 262144 +
            (0x80 + c.toNat / 4096 % 64 - 0x80) * 4096 +
            (0x80 + c.toNat / 64 % 64 - 0x80) * 64 + (0x80 + c.toNat % 64 - 0x80)
            < 0x110000)) then
        some ((0xF0 + c.toNat / 262144 - 0xF0) * 262144 +
          (0x80 + c.toNat / 4096 % 64 - 0x80) * 4096 +
          (0x80 + c.toNat / 64 % 64 - 0x80) * 64 + (0x80 + c.toNat % 64 - 0x80), t)
        else none) = _
      have hn : (0xF0 + c.toNat / 262144 - 0xF0) * 262144 +
          (0x80 + c.toNat / 4096 % 64 - 0x80) * 4096 +
          (0x80 + c.toNat / 64 % 64 - 0x80) * 64 + (0x80 + c.toNat % 64 - 0x80)
          = c.toNat := by omega
      rw [hn]
      have hcond : (isCont (0x80 + c.toNat / 4096 % 64) &&
          isCont (0x80 + c.toNat / 64 % 64) && isCont (0x80 + c.toNat % 64) &&
          decide (0x10000 ≤ c.toNat) && decide (c.toNat < 0x110000)) = true := by
        simp only [isCont, Bool.and_eq_true, decide_eq_true_eq]
        exact ⟨⟨⟨⟨⟨by omega, by omega⟩, ⟨by omega, by omega⟩⟩,
          ⟨by omega, by omega⟩⟩, by omega⟩, by omega⟩
      rw [hcond, if_pos rfl]


/-- Every character encodes to at least one byte. -/
theorem utf8Char_ne_nil (c : Char) : utf8Char c ≠ [] := by
  rw [utf8Char]
  repeat' split
  all_goals simp

/-- A character list is no longer than its UTF-8 encoding. -/
theorem utf8Encode_length_ge : ∀ cs : List Char,
    cs.length ≤ (utf8Encode cs).length
  | [] => Nat.le_refl _
  | c :: cs => by
      have h1 : 1 ≤ (utf8Char c).length :=
        List.length_pos.mpr (utf8Char_ne_nil c)
      have h2 := utf8Encode_length_ge cs
      have : utf8Encode (c :: cs) = utf8Char c ++ utf8Encode cs := by
        simp [utf8Encode]
      rw [this, List.length_append, List.length_cons]
      omega

/-- UTF-8 decoding inverts UTF-8 encoding (fuel version; one unit of
fuel per character suffices). -/
theorem utf8DecodeGo_encode :
    ∀ (cs : List Char) (fuel : Nat), cs.length < fuel →
      utf8DecodeGo fuel (utf8Encode cs) = some cs
  | [], fuel, hf => by
      match fuel, hf with
      | f + 1, _ => rfl
  | c :: cs, fuel, hf => by
      match fuel, hf with
      | f + 1, hf =>
        have hsplit : utf8Encode (c :: cs) = utf8Char c ++ utf8Encode cs := by
          simp [utf8Encode]
        have hflen : cs.length < f := by simp at hf; omega
        rw [hsplit]
        by_cases h1 : c.toNat < 0x80
        · rw [show utf8Char c = [c.toNat] from by rw [utf8Char, if_pos h1]]
          rw [List.singleton_append, utf8DecodeGo, if_pos h1,
            utf8DecodeGo_encode cs f hflen, Char.ofNat_toNat]
          rfl
        · have hstep := utf8Step_char c (utf8Encode cs) (by omega)
          cases hchar : utf8Char c with
          | nil => exact absurd hchar (utf8Char_ne_nil c)
          | cons b bt =>
              rw [hchar] at hstep
              simp only [List.headI, List.tail_cons] at hstep
              have hb : ¬b < 0xC2 := by
                intro hlt
                unfold utf8Step at hstep
                rw [if_pos hlt] at hstep
                exact Option.noConfusion hstep
              rw [List.cons_append, utf8DecodeGo, if_neg (by omega)]
              simp only [hstep]
              rw [utf8DecodeGo_encode cs f hflen, Char.ofNat_toNat]
              rfl

/-- UTF-8 decoding inverts UTF-8 encoding. -/
theorem utf8Decode_encode (cs : List Char) :
    utf8Decode (utf8Encode cs) = some cs :=
  utf8DecodeGo_encode cs _ (by have := utf8Encode_length_ge cs; omega)

/-- Two characters with different scalar values differ. -/
theorem char_ne_of_toNat_ne {c d : Char} (h : c.toNat ≠ d.toNat) : c ≠ d :=
  fun hc => h (congrArg Char.toNat hc)

/-- A positive number's decimal notation does not start with a zero. -/
theorem natDigitsGo_head_ne_zero :
    ∀ (f n : Nat), n ≤ f → 1 ≤ n → ∀ d ds, natDigitsGo f n = d :: ds → d ≠ 48
  | 0, n, hf, h1, _, _, _ => by omega
  | f + 1, n, hf, h1, d, ds, hds => by
      rw [natDigitsGo] at hds
      split at hds
      · rename_i hn
        rw [List.cons.injEq] at hds
        omega
      · rename_i hn
        cases hrec : natDigitsGo f (n / 10) with
        | nil => exact absurd hrec (natDigitsGo_ne_nil f (n / 10))
        | cons d0 ds0 =>
            rw [hrec, List.cons_append, List.cons.injEq] at hds
            obtain ⟨hd, -⟩ := hds
            rw [← hd]
            exact natDigitsGo_head_ne_zero f (n / 10) (by omega) (by omega)
              d0 ds0 hrec

/-- `spanDigits` takes exactly a digit prefix. -/
theorem spanDigits_append :
    ∀ (ds rest : List Char), (∀ c ∈ ds, isDigitChar c = true) →
      (∀ c, rest.head? = some c → isDigitChar c = false) →
      spanDigits (ds ++ rest) = (ds, rest)
  | [], rest, _, hrest => by
      cases rest with
      | nil => rfl
      | cons c r =>
          rw [List.nil_append, spanDigits, hrest c rfl]
          simp
  | d :: ds, rest, hds, hrest => by
      rw [List.cons_append, spanDigits, hds d (List.mem_cons_self _ _)]
      rw [spanDigits_append ds rest
        (fun c hc => hds c (List.mem_cons_of_mem _ hc)) hrest]
      simp

/-- The decimal digit characters are digits in the scanner's sense. -/
theorem natDecChars_digit (m : Nat) :
    ∀ c ∈ natDecChars m, isDigitChar c = true := by
  intro c hc
  rw [natDecChars, List.mem_map] at hc
  obtain ⟨d, hd, rfl⟩ := hc
  have := natDigitsGo_bounds m m d hd
  rw [isDigitChar, charToNat_ofNat d (by omega)]
  simp
  omega

/-- `pInt` reads decimal integer notation back, whenever the following
character cannot extend the number. -/
theorem pInt_dec (i : Int) (rest : List Char)
    (hrest : ∀ c, rest.head? = some c →
      isDigitChar c = false ∧ c ≠ '.' ∧ c ≠ 'e' ∧ c ≠ 'E') :
    pInt (intDecChars i ++ rest) = some (i, rest) := by
  have hspan : ∀ m : Nat, spanDigits (natDecChars m ++ rest) =
      (natDecChars m, rest) :=
    fun m => spanDigits_append _ _ (natDecChars_digit m)
      (fun c hc => (hrest c hc).1)
  have hnodot : ¬(rest.head? = some '.' ∨ rest.head? = some 'e' ∨
      rest.head? = some 'E') := by
    rintro (hc | hc | hc) <;>
      [exact (hrest _ hc).2.1 rfl; exact (hrest _ hc).2.2.1 rfl;
       exact (hrest _ hc).2.2.2 rfl]
  have hheadclass : ∀ (m : Nat) c cs, natDecChars m = c :: cs →
      c ≠ '-' ∧ (1 ≤ m → c ≠ '0') := by
    intro m c cs hm
    rw [natDecChars] at hm
    cases hD : natDigits m with
    | nil => exact absurd hD (natDigitsGo_ne_nil m m)
    | cons d ds =>
        rw [hD, List.map_cons, List.cons.injEq] at hm
        obtain ⟨rfl, -⟩ := hm
        have hmem : d ∈ natDigitsGo m m := by
          rw [show natDigitsGo m m = natDigits m from rfl, hD]
          exact List.mem_cons_self _ _
        have hb := natDigitsGo_bounds m m d hmem
        constructor
        · apply char_ne_of_toNat_ne
          rw [charToNat_ofNat d (by omega)]
          have : ('-' : Char).toNat = 45 := by decide
          omega
        · intro h1
          have hd0 : d ≠ 48 :=
            natDigitsGo_head_ne_zero m m (Nat.le_refl m) h1 d ds hD
          apply char_ne_of_toNat_ne
          rw [charToNat_ofNat d (by omega)]
          have : ('0' : Char).toNat = 48 := by decide
          omega
  by_cases hneg : i < 0
  · have hm1 : 1 ≤ (-i).toNat := by omega
    rw [show intDecChars i = '-' :: natDecChars (-i).toNat from by
      rw [intDecChars, if_pos hneg]]
    rw [List.cons_append, pInt]
    simp only [List.head?_cons, Option.some.injEq, if_pos]
    rw [List.tail_cons, hspan]
    cases hD : natDecChars (-i).toNat with
    | nil =>
        rw [natDecChars] at hD
        exact absurd (List.map_eq_nil_iff.mp hD) (natDigitsGo_ne_nil _ _)
    | cons d ds =>
        have hhead := hheadclass (-i).toNat d ds hD
        have hval : digitsToNat (d :: ds) = (-i).toNat := by
          have := natDigitsGo_val (-i).toNat (-i).toNat (Nat.le_refl _)
          rw [show (natDigitsGo (-i).toNat (-i).toNat).map Char.ofNat =
            natDecChars (-i).toNat from rfl, hD] at this
          exact this
        show (if d = '0' ∧ ds ≠ [] then none
            else if rest.head? = some '.' ∨ rest.head? = some 'e' ∨
                rest.head? = some 'E' then none
            else some (-((digitsToNat (d :: ds) : Nat) : Int), rest)) =
          some (i, rest)
        rw [if_neg (by
          rintro ⟨h0, -⟩
          exact hhead.2 hm1 h0), if_neg hnodot, hval]
        have hi : -((((-i).toNat : Nat) : Int)) = i := by omega
        rw [hi]
  · have hm : i.toNat = i.toNat := rfl
    rw [show intDecChars i = natDecChars i.toNat from by
      rw [intDecChars, if_neg hneg]]
    have hnominus : (natDecChars i.toNat ++ rest).head? ≠ some '-' := by
      cases hD : natDecChars i.toNat with
      | nil =>
          rw [natDecChars] at hD
          exact absurd (List.map_eq_nil_iff.mp hD) (natDigitsGo_ne_nil _ _)
      | cons d ds =>
          rw [List.cons_append, List.head?_cons]
          intro hc
          rw [Option.some.injEq] at hc
          exact (hheadclass i.toNat d ds hD).1 hc
    rw [pInt]
    simp only [hnominus, if_neg, if_false]
    rw [hspan]
    cases hD : natDecChars i.toNat with
    | nil =>
        rw [natDecChars] at hD
        exact absurd (List.map_eq_nil_iff.mp hD) (natDigitsGo_ne_nil _ _)
    | cons d ds =>
        have hhead := hheadclass i.toNat d ds hD
        by_cases hz : i.toNat = 0
        · have : natDecChars i.toNat = ['0'] := by
            rw [natDecChars, hz]
            decide
          rw [this] at hD
          rw [List.cons.injEq] at hD
          obtain ⟨rfl, rfl⟩ := hD
          show (if '0' = '0' ∧ ([] : List Char) ≠ [] then none
              else if rest.head? = some '.' ∨ rest.head? = some 'e' ∨
                  rest.head? = some 'E' then none
              else some (((digitsToNat ['0'] : Nat) : Int), rest)) =
            some (i, rest)
          rw [if_neg (by
            rintro ⟨-, hne⟩
            exact hne rfl), if_neg hnodot]
          have h0 : digitsToNat ['0'] = 0 := by decide
          rw [h0]
          have hi : ((0 : Nat) : Int) = i := by omega
          rw [hi]
        · have hval : digitsToNat (d :: ds) = i.toNat := by
            have := natDigitsGo_val i.toNat i.toNat (Nat.le_refl _)
            rw [show (natDigitsGo i.toNat i.toNat).map Char.ofNat =
              natDecChars i.toNat from rfl, hD] at this
            exact this
          show (if d = '0' ∧ ds ≠ [] then none
              else if rest.head? = some '.' ∨ rest.head? = some 'e' ∨
                  rest.head? = some 'E' then none
              else some (((digitsToNat (d :: ds) : Nat) : Int), rest)) =
            some (i, rest)
          rw [if_neg (by
            rintro ⟨h0, -⟩
            exact hhead.2 (by omega) h0), if_neg hnodot, hval]
          have hi : ((i.toNat : Nat) : Int) = i := by omega
          rw [hi]

/-- Unfolding of one fueled string-body parsing step. -/
theorem pStringBodyGo_succ (acc : List Char) (fuel : Nat) (cs : List Char) :
    pStringBodyGo acc (fuel + 1) cs =
      match pStrStep cs with
      | some (none, r) => some (String.mk acc.reverse, r)
      | some (some ch, r) => pStringBodyGo (ch :: acc) fuel r
      | none => none := rfl

/-- Each string-lexing step consumes at least one character. -/
theorem pStrStep_length :
    ∀ (cs : List Char) (x : Option Char) (r : List Char),
      pStrStep cs = some (x, r) → r.length < cs.length := by
  intro cs x r h
  rw [pStrStep.eq_def] at h
  repeat' split at h
  all_goals first
    | exact Option.noConfusion h
    | (rw [Option.some.injEq, Prod.mk.injEq] at h
       obtain ⟨-, h2⟩ := h
       subst h2
       simp only [List.length_cons, List.length_nil]
       omega)

/-- The string-body parser does not depend on the fuel, whenever the
fuel covers the input length. -/
theorem pStringBodyGo_fuel_irrel :
    ∀ (f g : Nat) (acc cs : List Char), cs.length ≤ f → cs.length ≤ g →
      pStringBodyGo acc f cs = pStringBodyGo acc g cs
  | 0, 0, acc, cs, hf, hg => rfl
  | 0, g + 1, acc, cs, hf, hg => by
      have hcs : cs = [] := List.eq_nil_of_length_eq_zero (by omega)
      subst hcs
      rfl
  | f + 1, 0, acc, cs, hf, hg => by
      have hcs : cs = [] := List.eq_nil_of_length_eq_zero (by omega)
      subst hcs
      rfl
  | f + 1, g + 1, acc, cs, hf, hg => by
      rw [pStringBodyGo_succ, pStringBodyGo_succ]
      cases hs : pStrStep cs with
      | none => rfl
      | some p =>
          obtain ⟨x, r⟩ := p
          have hr := pStrStep_length cs x r hs
          cases x with
          | none => rfl
          | some ch =>
              show pStringBodyGo (ch :: acc) f r = pStringBodyGo (ch :: acc) g r
              exact pStringBodyGo_fuel_irrel f g (ch :: acc) r
                (by omega) (by omega)

/-- `pStrStep` on a closing quote. -/
theorem pStrStep_quote (rest : List Char) :
    pStrStep (Char.ofNat 34 :: rest) = some (none, rest) := by
  rw [pStrStep.eq_def]
  split
  · rename_i c cs heq
    rw [List.cons.injEq] at heq
    obtain ⟨rfl, rfl⟩ := heq
    rw [if_pos rfl]
  · rename_i heq
    exact absurd heq (by simp)

/-- `pStrStep` on an ordinary (unescaped) character. -/
theorem pStrStep_plain (c : Char) (t : List Char)
    (h34 : c ≠ Char.ofNat 34) (h92 : c ≠ Char.ofNat 92)
    (hctl : ¬ c.toNat < 32) :
    pStrStep (c :: t) = some (some c, t) := by
  rw [pStrStep.eq_def]
  split
  · rename_i c2 cs heq
    rw [List.cons.injEq] at heq
    obtain ⟨rfl, rfl⟩ := heq
    rw [if_neg h34, if_neg h92, if_neg hctl]
  · rename_i heq
    exact absurd heq (by simp)

/-- `pStrStep` on a one-character escape. -/
theorem pStrStep_esc (e ch : Char) (t : List Char)
    (he : e ≠ 'u') (hu : unescapeChar e = some ch) :
    pStrStep (Char.ofNat 92 :: e :: t) = some (some ch, t) := by
  rw [pStrStep.eq_def]
  split
  · rename_i c2 cs heq
    rw [List.cons.injEq] at heq
    obtain ⟨rfl, rfl⟩ := heq
    rw [if_neg (by decide), if_pos rfl]
    split
    · rename_i a b c3 d rest heq2
      rw [List.cons.injEq] at heq2
      exact absurd heq2.1 he
    · rename_i e2 rest hcond heq2
      rw [List.cons.injEq] at heq2
      obtain ⟨rfl, rfl⟩ := heq2
      rw [hu]
    · rename_i h1 heq3
      exact List.noConfusion heq3
  · rename_i heq
    exact absurd heq (by simp)

/-- `pStrStep` on a `\uXXXX` escape below the surrogate range. -/
theorem pStrStep_u (a b c2 d : Char) (n : Nat) (t : List Char)
    (hq : hexQuad a b c2 d = some n) (hn : n < 0xD800) :
    pStrStep (Char.ofNat 92 :: 'u' :: a :: b :: c2 :: d :: t) =
      some (some (Char.ofNat n), t) := by
  rw [pStrStep.eq_def]
  split
  · rename_i c3 cs heq
    rw [List.cons.injEq] at heq
    obtain ⟨rfl, rfl⟩ := heq
    rw [if_neg (by decide), if_pos rfl]
    split
    · rename_i a2 b2 c4 d2 rest heq2
      rw [List.cons.injEq, List.cons.injEq, List.cons.injEq, List.cons.injEq,
        List.cons.injEq] at heq2
      obtain ⟨-, rfl, rfl, rfl, rfl, rfl⟩ := heq2
      rw [hq]
      split
      · rename_i heq3
        exact Option.noConfusion heq3
      · rename_i n2 heq3
        rw [Option.some.injEq] at heq3
        subst heq3
        rw [if_pos (Or.inl hn)]
    · rename_i e2 rest hcond heq2
      rw [List.cons.injEq] at heq2
      exact (hcond a b c2 d t heq2.1.symm heq2.2.symm).elim
    · rename_i h1 heq3
      exact List.noConfusion heq3
  · rename_i heq
    exact absurd heq (by simp)

/-- A lowercase hex digit reads back its value. -/
theorem hexVal_hexChar (m : Nat) (h : m < 16) : hexVal (hexChar m) = some m := by
  interval_cases m <;> decide

/-- The escape text of a character is never empty. -/
theorem escapeChar_len (c : Char) : 1 ≤ (escapeChar c).data.length := by
  rw [escapeChar]
  split_ifs
  · decide
  · decide
  · decide
  · decide
  · decide
  · decide
  · decide
  · rw [String.data_append]
    simp
  · simp [String.singleton]

/-- serde_json's foldl string escaping, as a flat character list. -/
theorem stringFoldl_escape_data :
    ∀ (cs : List Char) (s : String),
      (cs.foldl (fun acc c => acc ++ escapeChar c) s).data =
        s.data ++ cs.flatMap fun c => (escapeChar c).data
  | [], s => by simp
  | c :: cs, s => by
      rw [List.foldl_cons, stringFoldl_escape_data cs (s ++ escapeChar c)]
      rw [String.data_append]
      simp [List.flatMap_cons]

/-- The characters of a rendered string literal: quote, escaped body,
quote. -/
theorem renderString_data (s : String) :
    (renderString s).data =
      Char.ofNat 34 ::
        ((s.data.flatMap fun c => (escapeChar c).data) ++ [Char.ofNat 34]) := by
  rw [renderString, String.data_append, String.data_append]
  rw [stringFoldl_escape_data s.data ""]
  rfl

/-- One source character becomes one decoded lexing step. -/
theorem pStrStep_escapeChar (c : Char) (t : List Char) :
    pStrStep ((escapeChar c).data ++ t) = some (some c, t) := by
  by_cases h34 : c = Char.ofNat 34
  · subst h34
    rw [show (escapeChar (Char.ofNat 34)).data =
      [Char.ofNat 92, Char.ofNat 34] from rfl]
    exact pStrStep_esc (Char.ofNat 34) (Char.ofNat 34) t (by decide) (by decide)
  by_cases h92 : c = Char.ofNat 92
  · subst h92
    rw [show (escapeChar (Char.ofNat 92)).data =
      [Char.ofNat 92, Char.ofNat 92] from rfl]
    exact pStrStep_esc (Char.ofNat 92) (Char.ofNat 92) t (by decide) (by decide)
  by_cases h8 : c = Char.ofNat 8
  · subst h8
    rw [show (escapeChar (Char.ofNat 8)).data =
      [Char.ofNat 92, 'b'] from rfl]
    exact pStrStep_esc 'b' (Char.ofNat 8) t (by decide) (by decide)
  by_cases h9 : c = Char.ofNat 9
  · subst h9
    rw [show (escapeChar (Char.ofNat 9)).data =
      [Char.ofNat 92, 't'] from rfl]
    exact pStrStep_esc 't' (Char.ofNat 9) t (by decide) (by decide)
  by_cases h10 : c = Char.ofNat 10
  · subst h10
    rw [show (escapeChar (Char.ofNat 10)).data =
      [Char.ofNat 92, 'n'] from rfl]
    exact pStrStep_esc 'n' (Char.ofNat 10) t (by decide) (by decide)
  by_cases h12 : c = Char.ofNat 12
  · subst h12
    rw [show (escapeChar (Char.ofNat 12)).data =
      [Char.ofNat 92, 'f'] from rfl]
    exact pStrStep_esc 'f' (Char.ofNat 12) t (by decide) (by decide)
  by_cases h13 : c = Char.ofNat 13
  · subst h13
    rw [show (escapeChar (Char.ofNat 13)).data =
      [Char.ofNat 92, 'r'] from rfl]
    exact pStrStep_esc 'r' (Char.ofNat 13) t (by decide) (by decide)
  by_cases hctl : c.toNat < 32
  · rw [escapeChar, if_neg h34, if_neg h92, if_neg h8, if_neg h9,
      if_neg h10, if_neg h12, if_neg h13, if_pos hctl]
    rw [String.data_append]
    rw [show ("\\u00" : String).data = [Char.ofNat 92, 'u', '0', '0']
      from rfl]
    rw [show (String.mk [hexChar (c.toNat / 16), hexChar (c.toNat % 16)]).data
      = [hexChar (c.toNat / 16), hexChar (c.toNat % 16)] from rfl]
    rw [show ([Char.ofNat 92, 'u', '0', '0'] ++
      [hexChar (c.toNat / 16), hexChar (c.toNat % 16)] : List Char) ++ t =
      Char.ofNat 92 :: 'u' :: '0' :: '0' ::
        hexChar (c.toNat / 16) :: hexChar (c.toNat % 16) :: t from rfl]
    have hq : hexQuad '0' '0' (hexChar (c.toNat / 16))
        (hexChar (c.toNat % 16)) = some c.toNat := by
      rw [hexQuad]
      rw [hexVal_hexChar (c.toNat / 16) (by omega)]
      rw [hexVal_hexChar (c.toNat % 16) (by omega)]
      rw [show hexVal '0' = some 0 from rfl]
      show some ((((0 * 16 + 0) * 16 + c.toNat / 16) * 16 +
        c.toNat % 16 : Nat)) = some c.toNat
      congr 1
      omega
    rw [pStrStep_u '0' '0' (hexChar (c.toNat / 16)) (hexChar (c.toNat % 16))
      c.toNat t hq (by omega)]
    rw [Char.ofNat_toNat]
  · rw [escapeChar, if_neg h34, if_neg h92, if_neg h8, if_neg h9,
      if_neg h10, if_neg h12, if_neg h13, if_neg hctl]
    rw [show (String.singleton c).data = [c] from rfl]
    rw [show ([c] : List Char) ++ t = c :: t from rfl]
    exact pStrStep_plain c t h34 h92 hctl

/-- Parsing an escaped string body followed by a closing quote returns
exactly the original characters (fuel formulation). -/
theorem pStringBodyGo_escape :
    ∀ (cs : List Char) (fuel : Nat) (acc rest : List Char),
      cs.length < fuel →
      pStringBodyGo acc fuel
        ((cs.flatMap fun c => (escapeChar c).data) ++ Char.ofNat 34 :: rest) =
        some (String.mk (acc.reverse ++ cs), rest)
  | [], 0, acc, rest, hf => by omega
  | [], fuel + 1, acc, rest, hf => by
      rw [List.flatMap_nil, List.nil_append, pStringBodyGo_succ,
        pStrStep_quote]
      simp
  | c :: cs, 0, acc, rest, hf => by omega
  | c :: cs, fuel + 1, acc, rest, hf => by
      rw [List.flatMap_cons, List.append_assoc, pStringBodyGo_succ]
      rw [pStrStep_escapeChar c
        ((cs.flatMap fun c => (escapeChar c).data) ++ Char.ofNat 34 :: rest)]
      show pStringBodyGo (c :: acc) fuel
        ((cs.flatMap fun c => (escapeChar c).data) ++ Char.ofNat 34 :: rest) =
        some (String.mk (acc.reverse ++ c :: cs), rest)
      rw [pStringBodyGo_escape cs fuel (c :: acc) rest (by
        rw [List.length_cons] at hf
        omega)]
      simp

/-- The length of a flat escaped body dominates the source length. -/
theorem flatMap_escape_len :
    ∀ cs : List Char,
      cs.length ≤ (cs.flatMap fun c => (escapeChar c).data).length
  | [] => by simp
  | c :: cs => by
      rw [List.flatMap_cons, List.length_append, List.length_cons]
      have h1 := escapeChar_len c
      have h2 := flatMap_escape_len cs
      omega

/-- Parsing an escaped string body followed by a closing quote returns
exactly the original characters. -/
theorem pStringBody_escape (cs acc rest : List Char) :
    pStringBody acc ((cs.flatMap fun c => (escapeChar c).data) ++
      Char.ofNat 34 :: rest) = some (String.mk (acc.reverse ++ cs), rest) := by
  rw [pStringBody]
  apply pStringBodyGo_escape
  rw [List.length_append, List.length_cons]
  have := flatMap_escape_len cs
  omega

theorem pVal_succ (fuel : Nat) (cs : List Char) :
    pVal (fuel + 1) cs =
      match dropWs cs with
      | [] => none
      | c :: r =>
          if c = 'n' then
            if r.take 3 = ['u', 'l', 'l'] then some (.null, r.drop 3) else none
          else if c = 't' then
            if r.take 3 = ['r', 'u', 'e'] then some (.bool true, r.drop 3)
            else none
          else if c = 'f' then
            if r.take 4 = ['a', 'l', 's', 'e'] then some (.bool false, r.drop 4)
            else none
          else if c = Char.ofNat 34 then
            match pStringBody [] r with
            | some (s, r2) => some (.str s, r2)
            | none => none
          else if c = '[' then
            match dropWs r with
            | [] => none
            | c2 :: r2 =>
                if c2 = ']' then some (.arr [], r2)
                else
                  match pElems fuel (c2 :: r2) with
                  | some (xs, r3) => some (.arr xs, r3)
                  | none => none
          else if c = lbrace then
            match dropWs r with
            | [] => none
            | c2 :: r2 =>
                if c2 = rbrace then some (.obj [], r2)
                else
                  match pMembers fuel (c2 :: r2) with
                  | some (fs, r3) => some (.obj fs, r3)
                  | none => none
          else if c = '-' ∨ isDigitChar c then
            match pInt (c :: r) with
            | some (n, r2) => some (.num n, r2)
            | none => none
          else none := rfl

theorem pElems_succ (fuel : Nat) (cs : List Char) :
    pElems (fuel + 1) cs =
      match pVal fuel cs with
      | none => none
      | some (v, r) =>
          match dropWs r with
          | ',' :: r2 =>
              (match pElems fuel r2 with
               | some (vs, r3) => some (v :: vs, r3)
               | none => none)
          | ']' :: r2 => some ([v], r2)
          | _ => none := rfl

theorem pMembers_succ (fuel : Nat) (cs : List Char) :
    pMembers (fuel + 1) cs =
      match dropWs cs with
      | c :: r =>
          if c = Char.ofNat 34 then
            match pStringBody [] r with
            | none => none
            | some (k, r1) =>
                match dropWs r1 with
                | ':' :: r2 =>
                    (match pVal fuel r2 with
                     | none => none
                     | some (v, r3) =>
                         match dropWs r3 with
                         | ',' :: r4 =>
                             (match pMembers fuel r4 with
                              | some (ms, r5) => some ((k, v) :: ms, r5)
                              | none => none)
                         | c2 :: r4 =>
                             if c2 = rbrace then some ([(k, v)], r4) else none
                         | [] => none)
                | _ => none
          else none
      | [] => none := rfl

theorem render_null : render .null = "null" := rfl
theorem render_num (n : Int) : render (.num n) = String.mk (intDecChars n) := rfl
theorem render_str (s : String) : render (.str s) = renderString s := rfl
theorem render_arr (xs : List Jval) :
    render (.arr xs) = "[" ++ renderElems xs ++ "]" := rfl
theorem render_obj (fs : List (String × Jval)) :
    render (.obj fs) =
      String.singleton lbrace ++ renderFields fs ++ String.singleton rbrace := rfl
theorem renderElems_cons (x y : Jval) (xs : List Jval) :
    renderElems (x :: y :: xs) = render x ++ "," ++ renderElems (y :: xs) := rfl
theorem renderFields_cons (k : String) (v : Jval) (f : String × Jval)
    (fs : List (String × Jval)) :
    renderFields ((k, v) :: f :: fs) =
      renderString k ++ ":" ++ render v ++ "," ++ renderFields (f :: fs) := rfl

theorem dropWs_not_ws (c : Char) (cs : List Char) (h : isJsonWs c = false) :
    dropWs (c :: cs) = c :: cs := by
  rw [dropWs, h]
  rfl

theorem digit_dispatch (c : Char) (h48 : 48 ≤ c.toNat) (h57 : c.toNat ≤ 57) :
    isJsonWs c = false ∧ c ≠ ']' ∧ c ≠ 'n' ∧ c ≠ 't' ∧ c ≠ 'f' ∧
      c ≠ Char.ofNat 34 ∧ c ≠ '[' ∧ c ≠ lbrace ∧ isDigitChar c = true := by
  have key : ∀ (x : Char), ¬(48 ≤ x.toNat ∧ x.toNat ≤ 57) → c ≠ x :=
    fun x hx hcc => hx (hcc ▸ ⟨h48, h57⟩)
  refine ⟨?_, key _ (by decide), key _ (by decide), key _ (by decide),
    key _ (by decide), key _ (by decide), key _ (by decide),
    key _ (by decide), ?_⟩
  · rw [isJsonWs]
    simp only [Bool.or_eq_false_iff, decide_eq_false_iff_not]
    exact ⟨⟨⟨key _ (by decide), key _ (by decide)⟩, key _ (by decide)⟩,
      key _ (by decide)⟩
  · rw [isDigitChar]
    simp only [Bool.and_eq_true, decide_eq_true_eq]
    exact ⟨h48, h57⟩

theorem num_head (n : Int) :
    ∃ c t, intDecChars n = c :: t ∧ isJsonWs c = false ∧ c ≠ ']' ∧
      c ≠ 'n' ∧ c ≠ 't' ∧ c ≠ 'f' ∧ c ≠ Char.ofNat 34 ∧ c ≠ '[' ∧
      c ≠ lbrace ∧ (c = '-' ∨ isDigitChar c = true) := by
  by_cases hneg : n < 0
  · refine ⟨'-', natDecChars (-n).toNat, ?_, by decide, by decide, by decide,
      by decide, by decide, by decide, by decide, by decide, Or.inl rfl⟩
    rw [intDecChars, if_pos hneg]
  · cases hD : natDecChars n.toNat with
    | nil =>
        rw [natDecChars] at hD
        exact absurd (List.map_eq_nil_iff.mp hD) (natDigitsGo_ne_nil _ _)
    | cons d ds =>
        have hb : 48 ≤ d.toNat ∧ d.toNat ≤ 57 := by
          have hD2 := hD
          rw [natDecChars] at hD2
          cases hE : natDigits n.toNat with
          | nil => exact absurd hE (natDigitsGo_ne_nil _ _)
          | cons e es =>
              rw [hE, List.map_cons, List.cons.injEq] at hD2
              obtain ⟨he, -⟩ := hD2
              have hbb := natDigitsGo_bounds n.toNat n.toNat e (by
                rw [show natDigitsGo n.toNat n.toNat = natDigits n.toNat
                  from rfl, hE]
                exact List.mem_cons_self _ _)
              rw [← he, charToNat_ofNat e (by omega)]
              omega
        obtain ⟨hws, hbr, hn2, ht2, hf2, h342, hlbr2, hlb2, hdig⟩ :=
          digit_dispatch d hb.1 hb.2
        refine ⟨d, ds, ?_, hws, hbr, hn2, ht2, hf2, h342, hlbr2, hlb2,
          Or.inr hdig⟩
        rw [intDecChars, if_neg hneg]
        exact hD

theorem render_head (v : Jval) : ∃ c t, (render v).data = c :: t ∧
    isJsonWs c = false ∧ c ≠ ']' := by
  cases v with
  | null => exact ⟨'n', ['u','l','l'], rfl, by decide, by decide⟩
  | bool b =>
      cases b with
      | true => exact ⟨'t', ['r','u','e'], rfl, by decide, by decide⟩
      | false => exact ⟨'f', ['a','l','s','e'], rfl, by decide, by decide⟩
  | num n =>
      obtain ⟨c, t, hc, hws, hbr, -⟩ := num_head n
      exact ⟨c, t, by
        rw [show (render (.num n)).data = intDecChars n from rfl, hc], hws, hbr⟩
  | str s =>
      refine ⟨Char.ofNat 34,
        (s.data.flatMap fun c => (escapeChar c).data) ++ [Char.ofNat 34],
        ?_, by decide, by decide⟩
      rw [show (render (.str s)).data = (renderString s).data from rfl,
        renderString_data]
  | arr xs =>
      refine ⟨'[', (renderElems xs).data ++ ("]" : String).data, ?_,
        by decide, by decide⟩
      rw [render_arr, String.data_append, String.data_append]
      rfl
  | obj fs =>
      refine ⟨lbrace, (renderFields fs).data ++ (String.singleton rbrace).data,
        ?_, by decide, by decide⟩
      rw [render_obj, String.data_append, String.data_append]
      rfl

theorem render_len (v : Jval) : 1 ≤ (render v).data.length := by
  obtain ⟨c, t, hc, -⟩ := render_head v
  rw [hc]
  simp

theorem renderElems_data_ne (x : Jval) (xs : List Jval) :
    ∃ s, (renderElems (x :: xs)).data = (render x).data ++ s := by
  cases xs with
  | nil => exact ⟨[], by simp [show renderElems [x] = render x from rfl]⟩
  | cons y ys =>
      refine ⟨',' :: (renderElems (y :: ys)).data, ?_⟩
      rw [renderElems_cons, String.data_append, String.data_append]
      simp


theorem renderFields_data_ne (k : String) (v : Jval)
    (fs : List (String × Jval)) :
    ∃ s, (renderFields ((k, v) :: fs)).data = Char.ofNat 34 :: s := by
  cases fs with
  | nil =>
      refine ⟨((k.data.flatMap fun c => (escapeChar c).data) ++
        [Char.ofNat 34]) ++ (":" : String).data ++ (render v).data, ?_⟩
      rw [show renderFields [(k, v)] = renderString k ++ ":" ++ render v
        from rfl, String.data_append, String.data_append, renderString_data]
      simp
  | cons f2 fs3 =>
      refine ⟨((k.data.flatMap fun c => (escapeChar c).data) ++
        [Char.ofNat 34]) ++ (":" : String).data ++ (render v).data ++
        ("," : String).data ++ (renderFields (f2 :: fs3)).data, ?_⟩
      rw [renderFields_cons, String.data_append, String.data_append,
        String.data_append, String.data_append, renderString_data]
      simp

mutual

/-- The parser reads back any rendered JSON value, leaving exactly the
following input, whenever the fuel covers the rendered length and the
following input cannot extend a number. -/
theorem pVal_render :
    ∀ (fuel : Nat) (v : Jval) (rest : List Char),
      (render v).data.length < fuel →
      (∀ c, rest.head? = some c →
        isDigitChar c = false ∧ c ≠ '.' ∧ c ≠ 'e' ∧ c ≠ 'E') →
      pVal fuel ((render v).data ++ rest) = some (v, rest)
  | 0, v, rest, hf, hrest => absurd hf (by omega)
  | fuel + 1, v, rest, hf, hrest => by
      rw [pVal_succ]
      cases v with
      | null =>
          rw [show (render .null).data ++ rest =
            'n' :: ('u' :: 'l' :: 'l' :: rest) from rfl]
          rw [dropWs_not_ws _ _ (by decide)]
          split
          · rename_i heq
            exact absurd heq (by simp)
          · rename_i c r heq
            rw [List.cons.injEq] at heq
            obtain ⟨rfl, rfl⟩ := heq
            rfl
      | bool b =>
          cases b with
          | true =>
              rw [show (render (.bool true)).data ++ rest =
                't' :: ('r' :: 'u' :: 'e' :: rest) from rfl]
              rw [dropWs_not_ws _ _ (by decide)]
              split
              case h_1 =>
                rename_i heq
                exact absurd heq (by simp)
              case h_2 =>
                rename_i c r heq
                rw [List.cons.injEq] at heq
                obtain ⟨rfl, rfl⟩ := heq
                rfl
          | false =>
              rw [show (render (.bool false)).data ++ rest =
                'f' :: ('a' :: 'l' :: 's' :: 'e' :: rest) from rfl]
              rw [dropWs_not_ws _ _ (by decide)]
              split
              case h_1 =>
                rename_i heq
                exact absurd heq (by simp)
              case h_2 =>
                rename_i c r heq
                rw [List.cons.injEq] at heq
                obtain ⟨rfl, rfl⟩ := heq
                rfl
      | num n =>
          obtain ⟨c0, t0, hc, hws, hbr, hn2, ht2, hf2, h342, hlbr2, hlb2,
            hdig⟩ := num_head n
          rw [show (render (.num n)).data = intDecChars n from rfl, hc,
            List.cons_append]
          rw [dropWs_not_ws _ _ hws]
          split
          · rename_i heq
            exact absurd heq (by simp)
          · rename_i c r heq
            rw [List.cons.injEq] at heq
            obtain ⟨rfl, rfl⟩ := heq
            rw [if_neg hn2, if_neg ht2, if_neg hf2, if_neg h342,
              if_neg hlbr2, if_neg hlb2, if_pos hdig]
            rw [show c0 :: (t0 ++ rest) = intDecChars n ++ rest from by
              rw [hc, List.cons_append]]
            rw [pInt_dec n rest hrest]
      | str s =>
          rw [show (render (.str s)).data = (renderString s).data from rfl,
            renderString_data, List.cons_append]
          rw [dropWs_not_ws _ _ (by decide)]
          split
          · rename_i heq
            exact absurd heq (by simp)
          · rename_i c r heq
            rw [List.cons.injEq] at heq
            obtain ⟨rfl, rfl⟩ := heq
            rw [if_neg (by decide), if_neg (by decide), if_neg (by decide),
              if_pos rfl]
            rw [show ((s.data.flatMap fun c => (escapeChar c).data) ++
              [Char.ofNat 34]) ++ rest =
              (s.data.flatMap fun c => (escapeChar c).data) ++
                Char.ofNat 34 :: rest from by simp]
            rw [pStringBody_escape s.data [] rest]
            rw [show String.mk (([] : List Char).reverse ++ s.data) = s from by
              simp]
      | arr xs =>
          rw [show (render (.arr xs)).data ++ rest =
            '[' :: ((renderElems xs).data ++ (']' :: rest)) from by
              rw [render_arr, String.data_append, String.data_append]
              simp]
          rw [dropWs_not_ws _ _ (by decide)]
          split
          · rename_i heq
            exact absurd heq (by simp)
          · rename_i c r heq
            rw [List.cons.injEq] at heq
            obtain ⟨rfl, rfl⟩ := heq
            rw [if_neg (by decide), if_neg (by decide), if_neg (by decide),
              if_neg (by decide), if_pos rfl]
            cases xs with
            | nil =>
                rw [show (renderElems ([] : List Jval)).data ++ ']' :: rest =
                  ']' :: rest from rfl]
                rw [dropWs_not_ws _ _ (by decide)]
                split
                · rename_i heq2
                  exact absurd heq2 (by simp)
                · rename_i c2 r2 heq2
                  rw [List.cons.injEq] at heq2
                  obtain ⟨rfl, rfl⟩ := heq2
                  rw [if_pos rfl]
            | cons x xs2 =>
                have hlen : (render (.arr (x :: xs2))).data.length =
                    (renderElems (x :: xs2)).data.length + 2 := by
                  rw [render_arr, String.data_append, String.data_append]
                  simp
                obtain ⟨c1, t1, hc1, hws1, hne1⟩ := render_head x
                obtain ⟨s1, hs1⟩ := renderElems_data_ne x xs2
                rw [hs1, hc1]
                rw [show ((c1 :: t1) ++ s1) ++ ']' :: rest =
                  c1 :: ((t1 ++ s1) ++ ']' :: rest) from by simp]
                rw [dropWs_not_ws _ _ hws1]
                split
                · rename_i heq2
                  exact absurd heq2 (by simp)
                · rename_i c2 r2 heq2
                  rw [List.cons.injEq] at heq2
                  obtain ⟨rfl, rfl⟩ := heq2
                  rw [if_neg hne1]
                  rw [show c1 :: ((t1 ++ s1) ++ ']' :: rest) =
                    (renderElems (x :: xs2)).data ++ ']' :: rest from by
                      rw [hs1, hc1]
                      simp]
                  rw [pElems_render fuel (x :: xs2) rest (by simp) (by omega)]
      | obj fs =>
          rw [show (render (.obj fs)).data ++ rest =
            lbrace :: ((renderFields fs).data ++ (rbrace :: rest)) from by
              rw [render_obj, String.data_append, String.data_append]
              simp [String.singleton]]
          rw [dropWs_not_ws _ _ (by decide)]
          split
          · rename_i heq
            exact absurd heq (by simp)
          · rename_i c r heq
            rw [List.cons.injEq] at heq
            obtain ⟨rfl, rfl⟩ := heq
            rw [if_neg (by decide), if_neg (by decide), if_neg (by decide),
              if_neg (by decide), if_neg (by decide), if_pos rfl]
            cases fs with
            | nil =>
                rw [show (renderFields ([] : List (String × Jval))).data ++
                  rbrace :: rest = rbrace :: rest from rfl]
                rw [dropWs_not_ws _ _ (by decide)]
                split
                · rename_i heq2
                  exact absurd heq2 (by simp)
                · rename_i c2 r2 heq2
                  rw [List.cons.injEq] at heq2
                  obtain ⟨rfl, rfl⟩ := heq2
                  rw [if_pos rfl]
            | cons kv fs2 =>
                obtain ⟨k, v⟩ := kv
                have hlen : (render (.obj ((k, v) :: fs2))).data.length =
                    (renderFields ((k, v) :: fs2)).data.length + 2 := by
                  rw [render_obj, String.data_append, String.data_append]
                  simp [String.singleton]
                obtain ⟨s2, hs2⟩ := renderFields_data_ne k v fs2
                rw [hs2]
                rw [show (Char.ofNat 34 :: s2) ++ rbrace :: rest =
                  Char.ofNat 34 :: (s2 ++ rbrace :: rest) from rfl]
                rw [dropWs_not_ws _ _ (by decide)]
                split
                · rename_i heq2
                  exact absurd heq2 (by simp)
                · rename_i c2 r2 heq2
                  rw [List.cons.injEq] at heq2
                  obtain ⟨rfl, rfl⟩ := heq2
                  rw [if_neg (by decide)]
                  rw [show Char.ofNat 34 :: (s2 ++ rbrace :: rest) =
                    (renderFields ((k, v) :: fs2)).data ++ rbrace :: rest
                    from by
                      rw [hs2]
                      rfl]
                  rw [pMembers_render fuel ((k, v) :: fs2) rest (by simp)
                    (by omega)]

/-- The element parser reads back a rendered nonempty element list up
to the closing bracket. -/
theorem pElems_render :
    ∀ (fuel : Nat) (xs : List Jval) (rest : List Char),
      xs ≠ [] →
      (renderElems xs).data.length + 1 < fuel →
      pElems fuel ((renderElems xs).data ++ ']' :: rest) = some (xs, rest)
  | 0, xs, rest, hne, hf => absurd hf (by omega)
  | fuel + 1, xs, rest, hne, hf => by
      rw [pElems_succ]
      cases xs with
      | nil => exact absurd rfl hne
      | cons x xs2 =>
          cases xs2 with
          | nil =>
              have hlen : (renderElems [x]).data = (render x).data := by
                rw [show renderElems [x] = render x from rfl]
              rw [show (renderElems [x]).data ++ ']' :: rest =
                (render x).data ++ ']' :: rest from by rw [hlen]]
              rw [pVal_render fuel x (']' :: rest)
                (by rw [hlen] at hf; omega)
                (by
                  intro c hcc
                  rw [List.head?_cons, Option.some.injEq] at hcc
                  subst hcc
                  decide)]
              rfl
          | cons y ys =>
              have hlen : (renderElems (x :: y :: ys)).data.length =
                  (render x).data.length + 1 +
                    (renderElems (y :: ys)).data.length := by
                rw [renderElems_cons, String.data_append, String.data_append]
                simp
                omega
              have hrx := render_len x
              rw [show (renderElems (x :: y :: ys)).data ++ ']' :: rest =
                (render x).data ++
                  (',' :: ((renderElems (y :: ys)).data ++ ']' :: rest))
                from by
                  rw [renderElems_cons, String.data_append, String.data_append]
                  simp]
              rw [pVal_render fuel x
                (',' :: ((renderElems (y :: ys)).data ++ ']' :: rest))
                (by omega)
                (by
                  intro c hcc
                  rw [List.head?_cons, Option.some.injEq] at hcc
                  subst hcc
                  decide)]
              show (match pElems fuel
                  ((renderElems (y :: ys)).data ++ ']' :: rest) with
                | some (vs, r3) => some (x :: vs, r3)
                | none => none) = some (x :: y :: ys, rest)
              rw [pElems_render fuel (y :: ys) rest (by simp) (by omega)]

/-- The member parser reads back a rendered nonempty member list up to
the closing brace. -/
theorem pMembers_render :
    ∀ (fuel : Nat) (fs : List (String × Jval)) (rest : List Char),
      fs ≠ [] →
      (renderFields fs).data.length + 1 < fuel →
      pMembers fuel ((renderFields fs).data ++ rbrace :: rest) = some (fs, rest)
  | 0, fs, rest, hne, hf => absurd hf (by omega)
  | fuel + 1, fs, rest, hne, hf => by
      rw [pMembers_succ]
      cases fs with
      | nil => exact absurd rfl hne
      | cons kv fs2 =>
          obtain ⟨k, v⟩ := kv
          cases fs2 with
          | nil =>
              have hlen2 : (renderFields [(k, v)]).data.length =
                  (renderString k).data.length + 1 +
                    (render v).data.length := by
                rw [show renderFields [(k, v)] =
                  renderString k ++ ":" ++ render v from rfl,
                  String.data_append, String.data_append]
                simp
                omega
              have hd : (renderFields [(k, v)]).data ++ rbrace :: rest =
                  Char.ofNat 34 ::
                    ((k.data.flatMap fun c => (escapeChar c).data) ++
                      Char.ofNat 34 ::
                        (':' :: ((render v).data ++ rbrace :: rest))) := by
                rw [show renderFields [(k, v)] =
                  renderString k ++ ":" ++ render v from rfl,
                  String.data_append, String.data_append, renderString_data]
                simp
              rw [hd]
              rw [dropWs_not_ws _ _ (by decide)]
              split
              case h_2 =>
                rename_i heq
                exact absurd heq (by simp)
              case h_1 =>
                rename_i c r heq
                rw [List.cons.injEq] at heq
                obtain ⟨rfl, rfl⟩ := heq
                rw [if_pos rfl]
                rw [pStringBody_escape k.data []
                  (':' :: ((render v).data ++ rbrace :: rest))]
                rw [show String.mk (([] : List Char).reverse ++ k.data) = k
                  from by simp]
                show (match pVal fuel ((render v).data ++ rbrace :: rest) with
                  | none => none
                  | some (v2, r3) =>
                      match dropWs r3 with
                      | ',' :: r4 =>
                          (match pMembers fuel r4 with
                           | some (ms, r5) => some ((k, v2) :: ms, r5)
                           | none => none)
                      | c2 :: r4 =>
                          if c2 = rbrace then some ([(k, v2)], r4) else none
                      | [] => none) = some ([(k, v)], rest)
                rw [pVal_render fuel v (rbrace :: rest)
                  (by omega)
                  (by
                    intro c hcc
                    rw [List.head?_cons, Option.some.injEq] at hcc
                    subst hcc
                    decide)]
                rfl
          | cons f3 fs3 =>
              have hlen2 : (renderFields ((k, v) :: f3 :: fs3)).data.length =
                  (renderString k).data.length + 1 + (render v).data.length +
                    1 + (renderFields (f3 :: fs3)).data.length := by
                rw [renderFields_cons, String.data_append, String.data_append,
                  String.data_append, String.data_append]
                simp
                omega
              have hrv := render_len v
              have hd : (renderFields ((k, v) :: f3 :: fs3)).data ++
                  rbrace :: rest =
                  Char.ofNat 34 ::
                    ((k.data.flatMap fun c => (escapeChar c).data) ++
                      Char.ofNat 34 ::
                        (':' :: ((render v).data ++
                          (',' :: ((renderFields (f3 :: fs3)).data ++
                            rbrace :: rest))))) := by
                rw [renderFields_cons, String.data_append, String.data_append,
                  String.data_append, String.data_append, renderString_data]
                simp
              rw [hd]
              rw [dropWs_not_ws _ _ (by decide)]
              split
              case h_2 =>
                rename_i heq
                exact absurd heq (by simp)
              case h_1 =>
                rename_i c r heq
                rw [List.cons.injEq] at heq
                obtain ⟨rfl, rfl⟩ := heq
                rw [if_pos rfl]
                rw [pStringBody_escape k.data []
                  (':' :: ((render v).data ++
                    (',' :: ((renderFields (f3 :: fs3)).data ++
                      rbrace :: rest))))]
                rw [show String.mk (([] : List Char).reverse ++ k.data) = k
                  from by simp]
                show (match pVal fuel ((render v).data ++
                    (',' :: ((renderFields (f3 :: fs3)).data ++
                      rbrace :: rest))) with
                  | none => none
                  | some (v2, r3) =>
                      match dropWs r3 with
                      | ',' :: r4 =>
                          (match pMembers fuel r4 with
                           | some (ms, r5) => some ((k, v2) :: ms, r5)
                           | none => none)
                      | c2 :: r4 =>
                          if c2 = rbrace then some ([(k, v2)], r4) else none
                      | [] => none) = some ((k, v) :: f3 :: fs3, rest)
                rw [pVal_render fuel v
                  (',' :: ((renderFields (f3 :: fs3)).data ++ rbrace :: rest))
                  (by omega)
                  (by
                    intro c hcc
                    rw [List.head?_cons, Option.some.injEq] at hcc
                    subst hcc
                    decide)]
                show (match pMembers fuel
                    ((renderFields (f3 :: fs3)).data ++ rbrace :: rest) with
                  | some (ms, r5) => some ((k, v) :: ms, r5)
                  | none => none) = some ((k, v) :: f3 :: fs3, rest)
                rw [pMembers_render fuel (f3 :: fs3) rest (by simp)
                  (by omega)]

end

/-- A complete rendered document parses back to the rendered value. -/
theorem jsonParse_render (v : Jval) : jsonParse (render v).data = some v := by
  have h := pVal_render (2 * (render v).data.length + 2) v []
    (by omega) (by intro c hcc; simp at hcc)
  rw [List.append_nil] at h
  rw [jsonParse, h]
  rfl

/-- C1: the full byte-level round trip. Encoding a message with
`send_message` and decoding the frame with `receive_message` restores
`Request`s and `Response`s exactly (given no optional field is an
explicit JSON `null`, and the body is shorter than 2^64 bytes, the
`usize` bound); an encoded `Notification`, however, decodes as a
`Request` with the same method and params and no id, because the
untagged `Message` decoder tries `Request` first. -/
theorem message_roundtrip_classification (m : Message)
    (h : noExplicitNullOpt m)
    (hlen : (utf8Encode (render m.toJson).data).length < 2 ^ 64) :
    receive_message (send_message m) =
      .ok ((match m with
        | .notification n => .request ⟨n.jsonrpc, n.method, n.params, none⟩
        | _ => m), []) := by
  have hrh := readHeaders_frame (render m.toJson)
  have h2 : (readHeaders (send_message m)).2 =
      utf8Encode (render m.toJson).data := by
    rw [send_message, hrh]
  have hdec : utf8Decode (readHeaders (send_message m)).1 =
      some ("Content-Length: ".data ++
        (natDigits (utf8Encode (render m.toJson).data).length).map
          Char.ofNat ++
        [Char.ofNat 13, Char.ofNat 10, Char.ofNat 13, Char.ofNat 10]) := by
    have h1 : (readHeaders (send_message m)).1 =
        utf8Encode "Content-Length: ".data ++
          natDigits (utf8Encode (render m.toJson).data).length ++
          [13, 10, 13, 10] := by
      rw [send_message, hrh]
    rw [h1]
    rw [utf8Decode_ascii _ ?bound]
    case bound =>
      intro b hb
      rw [List.append_assoc, List.mem_append, List.mem_append] at hb
      rcases hb with hb | hb | hb
      · exact (by decide : ∀ x ∈ utf8Encode "Content-Length: ".data, x < 128)
          b hb
      · have := natDigitsGo_bounds _ _ b hb
        omega
      · simp at hb
        omega
    rw [List.map_append, List.map_append]
    rw [show List.map Char.ofNat (utf8Encode "Content-Length: ".data) =
      "Content-Length: ".data from by decide]
    rfl
  have hcl : contentLengthOf ("Content-Length: ".data ++
      (natDigits (utf8Encode (render m.toJson).data).length).map Char.ofNat ++
      [Char.ofNat 13, Char.ofNat 10, Char.ofNat 13, Char.ofNat 10]) =
      .ok (utf8Encode (render m.toJson).data).length :=
    contentLengthOf_header _ hlen
  have hfrom := fromJson_toJson m h
  simp only [receive_message, hdec, hcl, h2, lt_self_iff_false, if_false,
    List.take_length, utf8Decode_encode, jsonParse_render, hfrom,
    List.drop_length]
  cases m <;> rfl

/-- C1 witness: a concrete request with numeric params and id
round-trips byte-for-byte to itself. -/
theorem message_roundtrip_classification_witness :
    noExplicitNullOpt (.request ⟨some "2.0", "m", some (.num 5),
        some (.num 9)⟩) ∧
    (utf8Encode (render (Message.toJson (.request ⟨some "2.0", "m",
        some (.num 5), some (.num 9)⟩))).data).length < 2 ^ 64 ∧
    receive_message (send_message (.request ⟨some "2.0", "m",
        some (.num 5), some (.num 9)⟩)) =
      .ok (.request ⟨some "2.0", "m", some (.num 5), some (.num 9)⟩, []) :=
  ⟨⟨by decide, by decide⟩, by decide,
    message_roundtrip_classification
      (.request ⟨some "2.0", "m", some (.num 5), some (.num 9)⟩)
      ⟨by decide, by decide⟩ (by decide)⟩

end CrushLsp
